import Mathlib

/-!
Verification development for the `medibot_final` repository.

The repository is an Arabic-language Telegram medication-reminder bot.  The
relevant logic lives in two Python files:

* `medibot_final_secure.py` — a per-user conversational state machine
  (`state_machine`), a JSON-backed user store (`data` plus `ensure_user`),
  and an APScheduler adapter (`sanitize_job_id`, `schedule_med_jobs`,
  `remove_med_jobs`, `reschedule_all`).
* `medibot_final_complete.py` — a variant whose `phone` handler infers a
  country bucket from a phone-number prefix.

This file gives a shallow embedding of that logic and proves, or refutes,
the frozen claims about it.  Python strings become Lean `String`s; the
mutable user dictionary becomes an association list `Store`; the scheduler's
job registry becomes the `Finset String` of live job identifiers, and a
scheduling pass additionally reports whether it returned normally: only the
`int`-parse of a time entry sits inside the source's `try/except`, so
`add_job`'s `ValueError` on a parseable hour or minute outside the cron
ranges (`cronRangeOk`) is uncaught and aborts the enclosing loop or handler;
exceptions raised mid-handler are modelled by returning the record exactly as
mutated up to the raising statement, with no message sent.

Numeric parsing models CPython's `int()` on ASCII input (optional surrounding
ASCII whitespace, optional single sign, ASCII digit groups separated by
single underscores); the Unicode-digit and exotic-whitespace cases of
CPython, which no claim exercises, are outside the model, as are
`str.isdigit`'s non-ASCII digit categories.
-/

namespace Medibot

/-- An ASCII whitespace character, as stripped by Python's `str.strip()`
(restricted to the ASCII range: space, tab, newline, vertical tab, form
feed, carriage return). -/
def isPySpace (c : Char) : Bool :=
  c = ' ' || c = '\t' || c = '\n' || c = '\r' || c.toNat = 11 || c.toNat = 12

/-- Python `str.strip()` on ASCII whitespace: drop leading and trailing
whitespace characters. -/
def pyStrip (s : String) : String :=
  String.mk (((s.toList.dropWhile isPySpace).reverse.dropWhile isPySpace).reverse)

/-- Helper for `splitOnChar`: walk the character list accumulating the
current field (reversed); each separator ends a field.  Mirrors Python
`str.split(sep)` for a one-character separator. -/
def splitOnCharAux (sep : Char) : List Char → List Char → List (List Char)
  | [], acc => [acc.reverse]
  | c :: cs, acc =>
    if c = sep then acc.reverse :: splitOnCharAux sep cs []
    else splitOnCharAux sep cs (c :: acc)

/-- Python `text.split(sep)` for a one-character separator `sep`:
`"a:b".split(":") = ["a","b"]`, `"".split(":") = [""]`. -/
def splitOnChar (sep : Char) (s : String) : List String :=
  (splitOnCharAux sep s.toList []).map String.mk

/-- Value of an ASCII digit character. -/
def digitVal (c : Char) : Nat := c.toNat - 48

/-- Digit-group tail parser for `pyDigits?`: after an initial digit, accept
further digits, allowing a single underscore only between two digits
(CPython's `int()` underscore rule). -/
def pyDigitsAux : Nat → List Char → Option Nat
  | acc, [] => some acc
  | acc, c :: cs =>
    if c.isDigit then pyDigitsAux (acc * 10 + digitVal c) cs
    else if c = '_' then
      match cs with
      | c2 :: cs2 =>
        if c2.isDigit then pyDigitsAux (acc * 10 + digitVal c2) cs2 else none
      | [] => none
    else none

/-- Parse an unsigned digit body the way CPython's `int()` does on ASCII:
nonempty, starts with a digit, single underscores allowed between digits. -/
def pyDigits? : List Char → Option Nat
  | [] => none
  | c :: cs => if c.isDigit then pyDigitsAux (digitVal c) cs else none

/-- CPython `int(s)` on ASCII input: strip whitespace, optional single
sign, digit body.  Returns `none` where `int()` raises `ValueError`. -/
def pyInt? (s : String) : Option Int :=
  match (pyStrip s).toList with
  | [] => none
  | c :: cs =>
    if c = '-' then (pyDigits? cs).map (fun n => -(n : Int))
    else if c = '+' then (pyDigits? cs).map (fun n => (n : Int))
    else (pyDigits? (c :: cs)).map (fun n => (n : Int))

/-- Python `text.isdigit()` restricted to ASCII: nonempty and all ASCII
digits. -/
def pyIsDigit (s : String) : Bool :=
  !s.toList.isEmpty && s.toList.all Char.isDigit

/-- Numeric value of an all-digits string (used where the source runs
`int(text)` after `text.isdigit()`). -/
def digitsToNat (s : String) : Nat :=
  s.toList.foldl (fun a c => a * 10 + digitVal c) 0

/-- Python `a.startswith(b)` as a Bool on Lean strings. -/
def strStartsWith (s pre : String) : Bool :=
  List.isPrefixOf pre.toList s.toList

/-- Python `a in b` substring test. -/
def strContains (sub s : String) : Bool :=
  decide (sub.toList <:+: s.toList)

/-- The two-field time parse performed by `hh, mm = map(int, text.split(":"))`:
succeeds exactly when the split on `":"` yields two fields and both parse as
Python ints. -/
def parseTime2 (s : String) : Option (Int × Int) :=
  match splitOnChar ':' s with
  | [a, b] =>
    match pyInt? a, pyInt? b with
    | some h, some m => some (h, m)
    | _, _ => none
  | _ => none

/-- A time string satisfying the spec's `HH:MM` invariant as the source
checks it: two `int()`-parseable fields with `0 ≤ HH < 24` and
`0 ≤ MM < 60`. -/
def validHHMM (s : String) : Bool :=
  match parseTime2 s with
  | some (h, m) => decide (0 ≤ h) && decide (h < 24) && decide (0 ≤ m) && decide (m < 60)
  | none => false

/-- Python `f"{n:02d}"`: zero-pad a nonnegative single-digit value to
width 2; other values print as-is. -/
def pad2 (n : Int) : String :=
  if 0 ≤ n ∧ n < 10 then "0" ++ n.repr else n.repr

/-!  Data model of `medibot_final_secure.py`.

A user record is the per-user dictionary stored in `data`; `Option` fields
model dictionary keys that may be absent.  The Arabic dictionary keys map to
field names as follows: `"اسم"` → `name` (`nameT` in the scratch object),
`"الجرعة"` → `dose` (`doseT`), `"الأوقات"` → `times`. -/

/-- A medicine dictionary: `{"id": ..., "اسم": ..., "الجرعة": ..., "الأوقات": [...]}`. -/
structure Medicine where
  id : String
  name : String
  dose : String
  times : List String
deriving DecidableEq, Repr

/-- The transient `temp` scratch dictionary built during the add-medicine
sub-flow.  Every key can be absent, since the dictionary grows key by key. -/
structure Temp where
  nameT : Option String := none
  doseT : Option String := none
  times_needed : Option Nat := none
  times_collected : Option Nat := none
  timesT : Option (List String) := none
  candidate : Option String := none
deriving DecidableEq, Repr

/-- One user's record in the `data` dictionary.  `ensure_user` creates it as
`{"step": None, "medicines": [], "paid": False}`; the remaining keys appear
as the conversation advances. -/
structure UserRec where
  step : Option String := none
  name : Option String := none
  phone : Option String := none
  age : Option Nat := none
  email : Option String := none
  country : Option String := none
  paid : Bool := false
  medicines : List Medicine := []
  temp : Option Temp := none
  edit_med_id : Option String := none
deriving DecidableEq, Repr

/-- The in-memory `data` dictionary: user id → record, in insertion order
(Python dicts preserve insertion order). -/
abbrev Store := List (String × UserRec)

/-- Dictionary write `data[uid] = u`: replace the first binding of `uid`
in place, or append a new binding at the end (Python dict semantics). -/
def storeSet : Store → String → UserRec → Store
  | [], uid, u => [(uid, u)]
  | (k, v) :: rest, uid, u =>
    if k = uid then (uid, u) :: rest else (k, v) :: storeSet rest uid u

/-- The record `ensure_user` creates for an unknown sender:
`{"step": None, "medicines": [], "paid": False}` (all other keys absent). -/
def defaultUser : UserRec := {}

/-- `ensure_user(uid)`: create the default record if `uid` is not yet a key
of `data`. -/
def ensure_user (uid : String) (st : Store) : Store :=
  match st.lookup uid with
  | some _ => st
  | none => st ++ [(uid, defaultUser)]

/-!  Scheduler adapter.

The APScheduler registry is keyed by job id with `replace_existing=True` on
add and exception-swallowed `remove_job`, so for the claims under study it
is faithfully abstracted by the finite set of live job ids. -/

/-- `sanitize_job_id`: keep alphanumerics and `_-.`, replace any other
character by `_` (ASCII `isalnum`). -/
def sanitizeChar (c : Char) : Char :=
  if c.isAlphanum || c = '_' || c = '-' || c = '.' then c else '_'

/-- `sanitize_job_id(raw)` from the source. -/
def sanitize_job_id (raw : String) : String :=
  String.mk (raw.toList.map sanitizeChar)

/-- Python `hhmm.replace(":", "")`. -/
def stripColons (s : String) : String :=
  String.mk (s.toList.filter (fun c => c != ':'))

/-- The deterministic job id derived for one `(time, index)` entry of a
medicine: `sanitize_job_id(f"{user_id}__{med['id']}__{hhmm.replace(':','')}__{idx}")`. -/
def jobKey (uid medId hhmm : String) (idx : Nat) : String :=
  sanitize_job_id (uid ++ "__" ++ medId ++ "__" ++ stripColons hhmm ++ "__" ++ Nat.repr idx)

/-- Every job id derived from `med["الأوقات"]`, valid or not (this is the
key list `remove_med_jobs` walks). -/
def allKeyList (uid : String) (med : Medicine) : List String :=
  med.times.enum.map (fun p => jobKey uid med.id p.2 p.1)

/-- The job ids of the entries the add loop of `schedule_med_jobs` attempts
to register: those whose time string parses as two ints (unparseable
entries are skipped with a log line).  When every parseable entry is also
within the cron field ranges, these are exactly the ids registered. -/
def validKeyList (uid : String) (med : Medicine) : List String :=
  (med.times.enum.filter (fun p => (parseTime2 p.2).isSome)).map
    (fun p => jobKey uid med.id p.2 p.1)

/-- `remove_med_jobs(user_id, med)`: `scheduler.remove_job` on every derived
key, swallowing the not-found exception — i.e. erase each derived key from
the live-id set. -/
def remove_med_jobs (uid : String) (med : Medicine) (js : Finset String) : Finset String :=
  med.times.enum.foldl (fun acc p => acc.erase (jobKey uid med.id p.2 p.1)) js

/-- Whether APScheduler's `CronTrigger` accepts the integer `hour` and
`minute` fields: the library validates `0 ≤ hour ≤ 23` and `0 ≤ minute ≤ 59`
and `add_job` raises `ValueError` otherwise.  In the source only the
`int`-parse sits inside the `try/except`, not `add_job`, so this error is
uncaught. -/
def cronRangeOk (hh mm : Int) : Bool :=
  decide (0 ≤ hh) && decide (hh < 24) && decide (0 ≤ mm) && decide (mm < 60)

/-- The add loop of `schedule_med_jobs` over the enumerated times: an entry
whose time fails the two-int parse is skipped with a log line (only the
parse is try-wrapped); a parseable entry whose hour or minute is outside
the cron range makes `add_job(..., id=jid, replace_existing=True)` raise an
uncaught `ValueError`, aborting the loop — the jobs registered so far stay
live and the second component is `false`. -/
def addJobsLoop (uid medId : String) : List (Nat × String) → Finset String →
    Finset String × Bool
  | [], js => (js, true)
  | p :: rest, js =>
    match parseTime2 p.2 with
    | none => addJobsLoop uid medId rest js
    | some (hh, mm) =>
      if cronRangeOk hh mm then
        addJobsLoop uid medId rest (insert (jobKey uid medId p.2 p.1) js)
      else (js, false)

/-- `schedule_med_jobs(user_id, med)`: first `remove_med_jobs`, then the
add loop; `true` means the Python function returned normally, `false` that
it raised `ValueError` out of `add_job` part-way through. -/
def schedule_med_jobs (uid : String) (med : Medicine) (js : Finset String) :
    Finset String × Bool :=
  addJobsLoop uid med.id med.times.enum (remove_med_jobs uid med js)

/-- The naming convention by which `reschedule_all` recognises this
subsystem's jobs: `"__" in job.id`. -/
def hasDunder (s : String) : Prop := ['_', '_'] <:+: s.toList

instance (s : String) : Decidable (hasDunder s) := by
  unfold hasDunder; infer_instance

/-- The inner loop of `reschedule_all` for one user: `schedule_med_jobs`
on each medicine in order; the loop is unguarded, so an exception raised by
`add_job` propagates and aborts it. -/
def rescheduleUser (uid : String) : List Medicine → Finset String → Finset String × Bool
  | [], js => (js, true)
  | m :: rest, js =>
    match schedule_med_jobs uid m js with
    | (js2, true) => rescheduleUser uid rest js2
    | (js2, false) => (js2, false)

/-- The outer loop of `reschedule_all` over `data.items()`, likewise
unguarded. -/
def rescheduleStore : Store → Finset String → Finset String × Bool
  | [], js => (js, true)
  | p :: rest, js =>
    match rescheduleUser p.1 p.2.medicines js with
    | (js2, true) => rescheduleStore rest js2
    | (js2, false) => (js2, false)

/-- `reschedule_all()`: remove every live job whose id contains `"__"`
(each removal individually exception-guarded), then re-derive the jobs of
every medicine of every user of `data`, in store order; a parseable
out-of-range time aborts the whole rebuild mid-way (`false`). -/
def reschedule_all (st : Store) (js : Finset String) : Finset String × Bool :=
  rescheduleStore st (js.filter (fun j => ¬ hasDunder j))

/-- All derived job keys of a whole store, in scheduling order. -/
def storeKeyList (st : Store) : List String :=
  st.flatMap (fun p => p.2.medicines.flatMap (fun m => allKeyList p.1 m))

/-- The derived job keys of the store entries that actually get scheduled. -/
def storeValidList (st : Store) : List String :=
  st.flatMap (fun p => p.2.medicines.flatMap (fun m => validKeyList p.1 m))

/-!  Conversation state machine (`state_machine` in `medibot_final_secure.py`).

The handler reads the user's `step`, matches the inbound text against a
linear chain of `if ... return` blocks, and mutates the record / scheduler.
`smUser` is that chain on a single user record; `state_machine` wraps it
with `ensure_user` and the store write.  A branch that raises (`KeyError`
on a missing scratch key) returns the record as mutated up to the raising
statement and sends nothing. -/

/-- Python `", ".join`-style joining used by the view-medicines listing. -/
def joinSep (sep : String) : List String → String
  | [] => ""
  | [x] => x
  | x :: xs => x ++ sep ++ joinSep sep xs

/-- Mutate the first medicine whose `"id"` equals `mid`, in place (the
source mutates the dict object returned by `next(...)`). -/
def updateFirstMed (meds : List Medicine) (mid : String) (f : Medicine → Medicine) :
    List Medicine :=
  match meds with
  | [] => []
  | m :: rest => if m.id = mid then f m :: rest else m :: updateFirstMed rest mid f

/-- Result of handling one inbound text: the new user record, the new live
job-id set, and the texts sent back. -/
abbrev StepOut := UserRec × Finset String × List String

/-- The source's medicine lookup `next((m for m in meds if m["id"] == mid), None)`
where `mid = u.get("edit_med_id")` (a missing key yields `None`, which
matches no string id). -/
def findByEditId (u : UserRec) : Option Medicine :=
  match u.edit_med_id with
  | none => none
  | some mid => u.medicines.find? (fun m => m.id == mid)

/-- Tail of the handler chain reached by falling out of the edit blocks
without returning: the delete-button check and the final fallback reply. -/
def restDelete (u : UserRec) (text : String) (js : Finset String) : StepOut :=
  if text = "🗑️ حذف دواء" then
    if u.medicines = [] then (u, js, ["لا توجد أدوية للحذف."])
    else ({ u with step := some "choose_delete" }, js, ["اختر الدواء للحذف:"])
  else (u, js, ["لم أفهم. استخدم الأزرار الموضحة أو اكتب /start للبدء."])

/-- Continuation of the `med_time_period` block after a period token was
accepted: append the converted `hhmm24` string to the scratch time list
(`setdefault("الأوقات", []).append(...)`), bump `times_collected`, pop the
candidate, then either ask for the next time or finalize the medicine (id
from the millisecond clock `nowMs`) and schedule its jobs.  A missing
scratch key raises `KeyError` at exactly the source position, leaving the
earlier in-place mutations behind. -/
def appendTimeStep (nowMs : Nat) (uid hhmm24 : String) (u : UserRec) (t : Temp)
    (js : Finset String) : StepOut :=
  match t.times_collected with
  | none =>
    ({ u with temp := some { t with timesT := some (t.timesT.getD [] ++ [hhmm24]) } }, js, [])
  | some c =>
    match t.times_needed with
    | none =>
      ({ u with
          temp := some { t with timesT := some (t.timesT.getD [] ++ [hhmm24]), times_collected := some (c + 1) } },
       js, [])
    | some needed =>
      if c + 1 < needed then
        ({ u with
            temp := some { t with timesT := some (t.timesT.getD [] ++ [hhmm24]), times_collected := some (c + 1), candidate := none },
            step := some "med_time_input" }, js,
         ["✅ حفظ الوقت. الآن أرسل الوقت التالي:"])
      else
        match t.nameT, t.doseT with
        | some nm, some ds =>
          match schedule_med_jobs uid ⟨Nat.repr nowMs, nm, ds, t.timesT.getD [] ++ [hhmm24]⟩ js with
          | (js2, true) =>
            ({ u with
               medicines := u.medicines ++ [⟨Nat.repr nowMs, nm, ds, t.timesT.getD [] ++ [hhmm24]⟩],
               temp := none,
               step := some "menu" },
             js2,
             ["✅ تم إضافة الدواء وتم جدولة التذكيرات."])
          | (js2, false) =>
            ({ u with
               medicines := u.medicines ++ [⟨Nat.repr nowMs, nm, ds, t.timesT.getD [] ++ [hhmm24]⟩],
               temp := some { t with timesT := some (t.timesT.getD [] ++ [hhmm24]), times_collected := some (c + 1), candidate := none } },
             js2, [])
        | _, _ =>
          ({ u with
              temp := some { t with timesT := some (t.timesT.getD [] ++ [hhmm24]), times_collected := some (c + 1), candidate := none } },
           js, [])

/-- The `med_time_period` block: convert the candidate 12-hour time by the
period token (`صباحًا` = morning, `مساءً` = evening), then continue with
`appendTimeStep`; any other token re-prompts without mutating. -/
def medTimePeriodStep (nowMs : Nat) (uid : String) (text : String) (u : UserRec)
    (js : Finset String) : StepOut :=
  match u.temp with
  | none => (u, js, [])
  | some t =>
    match t.candidate with
    | none => ({ u with step := some "menu" }, js, ["حدث خطأ، الرجاء البدء من جديد."])
    | some cand =>
      match parseTime2 cand with
      | none => ({ u with step := some "menu" }, js, ["خطأ في الوقت."])
      | some (hh, mm) =>
        if text = "صباحًا" ∨ text = "مساءً" then
          appendTimeStep nowMs uid
            (pad2 (if text = "صباحًا" then (if hh = 12 then 0 else hh)
                   else (if hh < 12 then hh + 12 else hh)) ++ ":" ++ pad2 mm)
            u t js
        else (u, js, ["اختيار غير صالح. اختر صباحًا أو مساءً."])

/-- Tail of the handler chain from the delete-medicine button onwards: the
`"🗑️ حذف دواء"` button check, the `choose_delete` step, and the final
fallback reply, in source order. -/
def smDeleteTail (uid text : String) (u : UserRec) (js : Finset String) : StepOut :=
  if text = "🗑️ حذف دواء" then
    if u.medicines = [] then (u, js, ["لا توجد أدوية للحذف."])
    else ({ u with step := some "choose_delete" }, js, ["اختر الدواء للحذف:"])
  else if u.step = some "choose_delete" then
    if text = "🔙 رجوع" then ({ u with step := some "in_mymeds" }, js, ["تم الرجوع."])
    else
      match u.medicines.find? (fun m => m.name == text) with
      | none => (u, js, ["الدواء غير موجود."])
      | some chosen =>
        ({ u with medicines := u.medicines.erase chosen, step := some "in_mymeds" },
         remove_med_jobs uid chosen js, ["تم حذف الدواء."])
  else (u, js, ["لم أفهم. استخدم الأزرار الموضحة أو اكتب /start للبدء."])

/-- The edit sub-flow section of the chain: the `choose_edit`,
`edit_field`, `edit_name`, `edit_dose` and `edit_times` steps.  A block the
source falls out of without returning continues with `restDelete`; an
unmatched step continues with `smDeleteTail`. -/
def smEdit (uid text : String) (u : UserRec) (js : Finset String) : StepOut :=
  if u.step = some "choose_edit" then
    if text = "🔙 رجوع" then ({ u with step := some "in_mymeds" }, js, ["تم الرجوع."])
    else
      match u.medicines.find? (fun m => m.name == text) with
      | none => (u, js, ["اختيار غير موجود."])
      | some chosen =>
        ({ u with edit_med_id := some chosen.id, step := some "edit_field" }, js,
         ["ماذا تريد تعديل؟"])
  else if u.step = some "edit_field" then
    match findByEditId u with
    | none => ({ u with step := some "menu" }, js, ["خطأ داخلي: الدواء غير موجود."])
    | some _ =>
      if text = "الاسم" then ({ u with step := some "edit_name" }, js, ["أدخل الاسم الجديد:"])
      else if text = "الجرعة" then
        ({ u with step := some "edit_dose" }, js, ["أدخل الجرعة الجديدة:"])
      else if text = "الأوقات" then
        ({ u with step := some "edit_times" }, js,
         ["أدخل الأوقات الجديدة مفصولة بفواصل مثل: 08:00,14:30"])
      else if text = "🔙 رجوع" then
        ({ u with step := some "in_mymeds" }, js, ["تم الرجوع."])
      else restDelete u text js
  else if u.step = some "edit_name" then
    match findByEditId u with
    | some _ =>
      ({ u with
          medicines := updateFirstMed u.medicines (u.edit_med_id.getD "")
            (fun m => { m with name := text }),
          step := some "in_mymeds" }, js, ["تم تعديل الاسم."])
    | none => restDelete u text js
  else if u.step = some "edit_dose" then
    match findByEditId u with
    | some _ =>
      ({ u with
          medicines := updateFirstMed u.medicines (u.edit_med_id.getD "")
            (fun m => { m with dose := text }),
          step := some "in_mymeds" }, js, ["تم تعديل الجرعة."])
    | none => restDelete u text js
  else if u.step = some "edit_times" then
    match findByEditId u with
    | some med =>
      match schedule_med_jobs uid
          { med with times := ((splitOnChar ',' text).map pyStrip).filter (fun s => s ≠ "") } js with
      | (js2, true) =>
        ({ u with
            medicines := updateFirstMed u.medicines (u.edit_med_id.getD "")
              (fun m => { m with times := ((splitOnChar ',' text).map pyStrip).filter (fun s => s ≠ "") }),
            step := some "in_mymeds" },
         js2, ["تم تعديل الأوقات."])
      | (js2, false) =>
        ({ u with
            medicines := updateFirstMed u.medicines (u.edit_med_id.getD "")
              (fun m => { m with times := ((splitOnChar ',' text).map pyStrip).filter (fun s => s ≠ "") }) },
         js2, [])
    | none => restDelete u text js
  else smDeleteTail uid text u js

/-- The medicine-menu section of the chain: the view-medicines step/button,
the add-medicine button and the edit-medicine button, continuing with
`smEdit`. -/
def smMeds (uid text : String) (u : UserRec) (js : Finset String) : StepOut :=
  if u.step = some "view_meds" ∨ text = "📋 عرض الأدوية" then
    if u.medicines = [] then
      ({ u with step := some "in_mymeds" }, js, ["لا توجد أدوية مسجلة."])
    else
      ({ u with step := some "in_mymeds" }, js,
       ["📋 قائمة أدوِيتي:\n\n" ++
        joinSep "\n\n"
          (u.medicines.enum.map (fun p =>
            Nat.repr (p.1 + 1) ++ ". " ++ p.2.name ++ " — " ++ p.2.dose ++
            "\nالأوقات: " ++ joinSep ", " p.2.times))])
  else if text = "➕ إضافة دواء" then
    ({ u with step := some "med_name" }, js, ["أدخل اسم الدواء:"])
  else if text = "✏️ تعديل دواء" then
    if u.medicines = [] then (u, js, ["لا توجد أدوية للتعديل."])
    else ({ u with step := some "choose_edit" }, js, ["اختر الدواء الذي تريد تعديله:"])
  else smEdit uid text u js

/-- The add-medicine section of the chain: the `med_name`, `med_dose`,
`med_times_count`, `med_time_input` and `med_time_period` steps, continuing
with `smMeds`. -/
def smAdd (nowMs : Nat) (uid text : String) (u : UserRec) (js : Finset String) : StepOut :=
  if u.step = some "med_name" then
    ({ u with temp := some { nameT := some text }, step := some "med_dose" }, js,
     ["أدخل الجرعة (مثال: حبة واحدة):"])
  else if u.step = some "med_dose" then
    match u.temp with
    | none => (u, js, [])
    | some t =>
      ({ u with temp := some { t with doseT := some text }, step := some "med_times_count" },
       js, ["كم مرة يوميًا؟ اختر 1..4"])
  else if u.step = some "med_times_count" then
    if ¬ (text = "1" ∨ text = "2" ∨ text = "3" ∨ text = "4") then
      (u, js, ["اختر رقم من 1 إلى 4 باستخدام الأزرار."])
    else
      match u.temp with
      | none => (u, js, [])
      | some t =>
        ({ u with
           temp := some { t with times_needed := some (digitsToNat text), times_collected := some 0, timesT := some [] },
           step := some "med_time_input" }, js,
         ["أدخل وقت الجرعة بصيغة HH:MM (مثال: 08:30):"])
  else if u.step = some "med_time_input" then
    match parseTime2 text with
    | none => (u, js, ["صيغة خاطئة. استخدم HH:MM مثل 08:30"])
    | some (hh, mm) =>
      if ¬ (0 ≤ hh ∧ hh < 24 ∧ 0 ≤ mm ∧ mm < 60) then
        (u, js, ["صيغة خاطئة. استخدم HH:MM مثل 08:30"])
      else
        match u.temp with
        | none => (u, js, [])
        | some t =>
          ({ u with
             temp := some { t with candidate := some text },
             step := some "med_time_period" }, js, ["اختر الفترة لهذا الوقت:"])
  else if u.step = some "med_time_period" then
    medTimePeriodStep nowMs uid text u js
  else smMeds uid text u js

/-- The registration section of the chain: `get_name` through
`awaiting_payment`, the menu default, and `in_mymeds`, continuing with
`smAdd`. -/
def smReg (nowMs : Nat) (uid text : String) (u : UserRec) (js : Finset String) : StepOut :=
  if u.step = some "get_name" then
    ({ u with name := some text, step := some "get_phone" }, js,
     ["حسنًا. الآن أرسل رقم هاتفك مع رمز الدولة (مثال: +20XXXXXXXXX):"])
  else if u.step = some "get_phone" then
    if ¬ strStartsWith text "+" ∨ text.length < 7 then
      (u, js, ["الرجاء إدخال رقم هاتف صحيح مع رمز الدولة مثل: +201XXXXXXXXX"])
    else
      ({ u with phone := some text, step := some "get_age" }, js, ["أدخل عمرك (أرقام فقط):"])
  else if u.step = some "get_age" then
    if ¬ pyIsDigit text then (u, js, ["من فضلك أدخل رقم صحيح للسن."])
    else
      ({ u with age := some (digitsToNat text), step := some "get_email" }, js,
       ["أدخل بريدك الإلكتروني:"])
  else if u.step = some "get_email" then
    if ¬ strContains "@" text ∨ ¬ strContains "." text then
      (u, js, ["من فضلك أدخل بريد إلكتروني صالح."])
    else
      ({ u with email := some text, step := some "choose_country" }, js, ["اختر دولتك:"])
  else if u.step = some "choose_country" then
    ({ u with
        country := some (if strContains "مصر" text then "EG"
          else if strContains "سعودي" text ∨ strContains "السعودية" text then "SA"
          else "DEFAULT"),
        step := some "post_signup" }, js,
     ["شكرًا! اختر باقتك للدفع:"])
  else if u.step = some "awaiting_payment" then
    if text = "تم الدفع" ∨ text = "دفعت" ∨ text = "paid" ∨ text = "تم" then
      ({ u with paid := true, step := some "menu" }, js,
       ["✅ تم وضع علامة الدفع مؤقتًا. تم تفعيل لوحة التحكم:"])
    else (u, js, ["اضغط على رابط الدفع أو اضغط زر التأكيد بعد إتمام الدفع."])
  else if u.step = none ∨ u.step = some "post_signup" ∨ u.step = some "menu" then
    ({ u with step := some "menu" }, js, ["مرحبًا — هذه لوحة التحكم الرئيسية:"])
  else if u.step = some "in_mymeds" then
    ({ u with step := some "in_mymeds" }, js, ["لوحة أدوِيتي:"])
  else smAdd nowMs uid text u js

/-- The full `if`-chain of `state_machine` applied to one (already
stripped) text and one user record: the three global navigation buttons,
then the step sections, in source order. -/
def smUser (nowMs : Nat) (uid : String) (text : String) (u : UserRec)
    (js : Finset String) : StepOut :=
  if text = "أدويتي" then
    if u.paid = false then
      ({ u with step := some "awaiting_payment" }, js,
       ["يجب إتمام الدفع أولاً للوصول إلى أدويتي. اختر باقة:"])
    else ({ u with step := some "in_mymeds" }, js, ["لوحة أدوِيتي:"])
  else if text = "💳 الباقات" then
    ({ u with step := some "awaiting_payment" }, js, ["اختر باقتك:", "روابط الدفع:"])
  else if text = "🔙 الرجوع إلى القائمة السابقة" ∨ text = "🔙 رجوع" ∨ text = "رجوع" then
    ({ u with step := some "menu" }, js, ["تم الرجوع للقائمة الرئيسية."])
  else smReg nowMs uid text u js

/-- Result of one full handler invocation. -/
structure StepResult where
  store : Store
  jobs : Finset String
  sent : List String

/-- `state_machine(m)`: strip the text, `ensure_user`, run the chain on the
user's record, and write the record back. -/
def state_machine (nowMs : Nat) (uid : String) (raw : String) (st : Store)
    (js : Finset String) : StepResult :=
  ⟨storeSet (ensure_user uid st) uid
      (smUser nowMs uid (pyStrip raw) (((ensure_user uid st).lookup uid).getD defaultUser) js).1,
   (smUser nowMs uid (pyStrip raw) (((ensure_user uid st).lookup uid).getD defaultUser) js).2.1,
   (smUser nowMs uid (pyStrip raw) (((ensure_user uid st).lookup uid).getD defaultUser) js).2.2⟩

/-- `cmd_start(m)` (the `/start` handler): `ensure_user`, then set the step
to `"get_name"`; every other field of an existing record is left as-is. -/
def cmd_start (uid : String) (st : Store) : Store :=
  storeSet (ensure_user uid st) uid
    { ((ensure_user uid st).lookup uid).getD defaultUser with step := some "get_name" }

/-- `callback_handler(call)`: `ensure_user`, then on `"paid_confirm"` set
the paid flag; any other callback only answers the query. -/
def callback_handler (uid : String) (cdata : String) (st : Store) : Store :=
  if cdata = "paid_confirm" then
    storeSet (ensure_user uid st) uid
      { ((ensure_user uid st).lookup uid).getD defaultUser with paid := true }
  else ensure_user uid st

/-- One inbound update, as dispatched by the bot's three handlers. -/
inductive BotInput where
  | start (uid : String)
  | msg (nowMs : Nat) (uid : String) (text : String)
  | callback (uid : String) (cdata : String)

/-- The sender of an inbound update. -/
def BotInput.uid : BotInput → String
  | .start u => u
  | .msg _ u _ => u
  | .callback u _ => u

/-- Dispatch one inbound update to its handler. -/
def handle (i : BotInput) (s : Store × Finset String) : Store × Finset String :=
  match i with
  | .start uid => (cmd_start uid s.1, s.2)
  | .msg nowMs uid text =>
    let r := state_machine nowMs uid text s.1 s.2
    (r.store, r.jobs)
  | .callback uid cdata => (callback_handler uid cdata s.1, s.2)

/-- Process a list of inbound updates in order. -/
def processTrace (l : List BotInput) (s : Store × Finset String) : Store × Finset String :=
  l.foldl (fun acc i => handle i acc) s

end Medibot


namespace Medibot

/-!  Store lemmas: how dictionary reads interact with dictionary writes and
with `ensure_user`. -/

theorem lookup_storeSet_self (st : Store) (uid : String) (u : UserRec) :
    (storeSet st uid u).lookup uid = some u := by
  induction st with
  | nil => simp [storeSet, List.lookup]
  | cons p rest ih =>
    obtain ⟨k, v⟩ := p
    by_cases h : k = uid
    · subst h; simp [storeSet, List.lookup]
    · have hb : (uid == k) = false := beq_eq_false_iff_ne.mpr fun e => h e.symm
      simp [storeSet, h, List.lookup, hb, ih]

theorem lookup_storeSet_ne (st : Store) (uid k : String) (u : UserRec) (h : k ≠ uid) :
    (storeSet st uid u).lookup k = st.lookup k := by
  have hb : (k == uid) = false := beq_eq_false_iff_ne.mpr h
  induction st with
  | nil => simp [storeSet, List.lookup, hb]
  | cons p rest ih =>
    obtain ⟨k', v⟩ := p
    by_cases h' : k' = uid
    · subst h'; simp [storeSet, List.lookup, hb]
    · simp [storeSet, h', List.lookup, ih]

theorem storeSet_lookup_eq (st : Store) (uid : String) (u : UserRec)
    (h : st.lookup uid = some u) : storeSet st uid u = st := by
  induction st with
  | nil => simp [List.lookup] at h
  | cons p rest ih =>
    obtain ⟨k, v⟩ := p
    by_cases hk : k = uid
    · subst hk
      simp [List.lookup] at h
      simp [storeSet, h]
    · have hb : (uid == k) = false := beq_eq_false_iff_ne.mpr fun e => hk e.symm
      simp [List.lookup, hb] at h
      simp [storeSet, hk, ih h]

theorem ensure_user_of_mem (uid : String) (st : Store) (u : UserRec)
    (h : st.lookup uid = some u) : ensure_user uid st = st := by
  simp [ensure_user, h]

theorem lookup_append_of_none {st : Store} {uid : String} (l : Store)
    (h : st.lookup uid = none) : (st ++ l).lookup uid = l.lookup uid := by
  induction st with
  | nil => simp
  | cons p rest ih =>
    obtain ⟨k, v⟩ := p
    by_cases hk : uid = k
    · subst hk; simp [List.lookup] at h
    · have hb : (uid == k) = false := beq_eq_false_iff_ne.mpr hk
      simp only [List.lookup, hb, List.cons_append] at h ⊢
      exact ih h

theorem lookup_append_of_some {st : Store} {uid : String} {u : UserRec} (l : Store)
    (h : st.lookup uid = some u) : (st ++ l).lookup uid = some u := by
  induction st with
  | nil => simp [List.lookup] at h
  | cons p rest ih =>
    obtain ⟨k, v⟩ := p
    by_cases hk : uid = k
    · subst hk; simp only [List.lookup, beq_self_eq_true, List.cons_append] at h ⊢; exact h
    · have hb : (uid == k) = false := beq_eq_false_iff_ne.mpr hk
      simp only [List.lookup, hb, List.cons_append] at h ⊢
      exact ih h

theorem ensure_user_lookup_none (uid : String) (st : Store)
    (h : st.lookup uid = none) : ensure_user uid st = st ++ [(uid, defaultUser)] := by
  simp [ensure_user, h]

theorem lookup_ensure_user_self (uid : String) (st : Store) :
    ((ensure_user uid st).lookup uid).isSome := by
  cases h : st.lookup uid with
  | some u => rw [ensure_user_of_mem uid st u h, h]; rfl
  | none =>
    rw [ensure_user_lookup_none uid st h, lookup_append_of_none _ h]
    simp [List.lookup]

theorem lookup_ensure_user_of_some (uid k : String) (st : Store) (u : UserRec)
    (h : st.lookup k = some u) : (ensure_user uid st).lookup k = some u := by
  cases h' : st.lookup uid with
  | some v => rw [ensure_user_of_mem uid st v h']; exact h
  | none => rw [ensure_user_lookup_none uid st h']; exact lookup_append_of_some _ h

/-!  Scheduler-adapter closed forms: `remove_med_jobs` is a set difference
and `schedule_med_jobs` is that difference re-united with the valid derived
keys. -/

theorem foldl_erase_eq_sdiff (l : List String) (A : Finset String) :
    l.foldl (fun acc k => acc.erase k) A = A \ l.toFinset := by
  induction l generalizing A with
  | nil => simp
  | cons k rest ih =>
    rw [List.foldl_cons, ih, Finset.erase_eq, List.toFinset_cons, Finset.insert_eq,
      sdiff_sdiff_left]
    simp

theorem remove_med_jobs_eq (uid : String) (med : Medicine) (js : Finset String) :
    remove_med_jobs uid med js = js \ (allKeyList uid med).toFinset := by
  have h : remove_med_jobs uid med js
      = (allKeyList uid med).foldl (fun acc k => acc.erase k) js := by
    simp [remove_med_jobs, allKeyList, List.foldl_map]
  rw [h, foldl_erase_eq_sdiff]

theorem mem_allKeyList_of_mem_valid {uid : String} {med : Medicine} {k : String}
    (h : k ∈ validKeyList uid med) : k ∈ allKeyList uid med := by
  simp only [validKeyList, List.mem_map] at h
  obtain ⟨p, hp, rfl⟩ := h
  exact List.mem_map.mpr ⟨p, List.mem_of_mem_filter hp, rfl⟩

/-- A time string that cannot make `add_job` raise: either it fails the
two-int parse (and the loop skips it), or its two ints lie within the
cron hour/minute ranges. -/
def timeCronSafe (s : String) : Bool :=
  match parseTime2 s with
  | some (hh, mm) => cronRangeOk hh mm
  | none => true

theorem snd_mem_of_mem_enumFrom {α : Type} :
    ∀ (l : List α) (n : Nat) (p : Nat × α), p ∈ l.enumFrom n → p.2 ∈ l
  | [], _, _, h => by simp [List.enumFrom] at h
  | a :: rest, n, p, h => by
    simp only [List.enumFrom, List.mem_cons] at h
    rcases h with he | hr
    · subst he; exact List.mem_cons_self _ _
    · exact List.mem_cons_of_mem _ (snd_mem_of_mem_enumFrom rest (n + 1) p hr)

theorem snd_mem_of_mem_enum {α : Type} {l : List α} {p : Nat × α}
    (h : p ∈ l.enum) : p.2 ∈ l :=
  snd_mem_of_mem_enumFrom l 0 p h

theorem addJobsLoop_cons_none (uid medId : String) (p : Nat × String)
    (rest : List (Nat × String)) (A : Finset String) (hp : parseTime2 p.2 = none) :
    addJobsLoop uid medId (p :: rest) A = addJobsLoop uid medId rest A := by
  simp only [addJobsLoop, hp]

theorem addJobsLoop_cons_some (uid medId : String) (p : Nat × String)
    (rest : List (Nat × String)) (A : Finset String) (hh mm : Int)
    (hp : parseTime2 p.2 = some (hh, mm)) :
    addJobsLoop uid medId (p :: rest) A
      = if cronRangeOk hh mm then
          addJobsLoop uid medId rest (insert (jobKey uid medId p.2 p.1) A)
        else (A, false) := by
  simp only [addJobsLoop, hp]

/-- When every entry of the slice is cron-safe, the add loop registers
exactly the parseable entries and returns normally. -/
theorem addJobsLoop_safe (uid medId : String) (l : List (Nat × String)) :
    ∀ (A : Finset String), (∀ p ∈ l, timeCronSafe p.2 = true) →
      addJobsLoop uid medId l A
        = (A ∪ ((l.filter (fun p => (parseTime2 p.2).isSome)).map
            (fun p => jobKey uid medId p.2 p.1)).toFinset, true) := by
  induction l with
  | nil => intro A _; simp [addJobsLoop]
  | cons p rest ih =>
    intro A hsafe
    cases hp : parseTime2 p.2 with
    | none =>
      rw [addJobsLoop_cons_none uid medId p rest A hp,
        ih A (fun q hq => hsafe q (List.mem_cons_of_mem _ hq))]
      simp [List.filter_cons, hp]
    | some v =>
      obtain ⟨hh, mm⟩ := v
      have hcr : cronRangeOk hh mm = true := by
        have h := hsafe p (List.mem_cons_self _ _)
        unfold timeCronSafe at h
        rw [hp] at h
        exact h
      rw [addJobsLoop_cons_some uid medId p rest A hh mm hp, if_pos hcr,
        ih _ (fun q hq => hsafe q (List.mem_cons_of_mem _ hq))]
      simp [List.filter_cons, hp, Finset.insert_union, Finset.union_insert]

/-- When every time of the medicine is cron-safe, `schedule_med_jobs`
returns normally with the sdiff-union closed form. -/
theorem schedule_med_jobs_safe (uid : String) (med : Medicine) (js : Finset String)
    (hsafe : ∀ t ∈ med.times, timeCronSafe t = true) :
    schedule_med_jobs uid med js
      = ((js \ (allKeyList uid med).toFinset) ∪ (validKeyList uid med).toFinset, true) := by
  unfold schedule_med_jobs
  rw [addJobsLoop_safe uid med.id med.times.enum _
      (fun p hp => hsafe p.2 (snd_mem_of_mem_enum hp)), remove_med_jobs_eq]
  rfl

end Medibot
namespace Medibot

/-- C4: after `schedule_med_jobs`, running `remove_med_jobs` on the
unchanged medicine leaves no derived key of that medicine live (whether or
not the add loop completed); and removal is idempotent (removing
already-absent jobs is a no-op, never an error). -/
theorem c4_schedule_then_unschedule (uid : String) (med : Medicine) (js : Finset String) :
    Disjoint ((allKeyList uid med).toFinset)
        (remove_med_jobs uid med (schedule_med_jobs uid med js).1)
      ∧ remove_med_jobs uid med (remove_med_jobs uid med js)
          = remove_med_jobs uid med js := by
  constructor
  · rw [remove_med_jobs_eq]
    exact Finset.sdiff_disjoint.symm
  · simp only [remove_med_jobs_eq, sdiff_idem]

/-!  Rebuild (`reschedule_all`) machinery: the two unguarded loops return
normally exactly when every scheduled entry is cron-safe, and then act as
a disjoint union of re-derived keys. -/

theorem rescheduleUser_cons_true (uid : String) (m : Medicine) (rest : List Medicine)
    (A X : Finset String) (h : schedule_med_jobs uid m A = (X, true)) :
    rescheduleUser uid (m :: rest) A = rescheduleUser uid rest X := by
  simp only [rescheduleUser, h]

theorem rescheduleStore_cons_true (p : String × UserRec) (rest : Store)
    (A X : Finset String) (h : rescheduleUser p.1 p.2.medicines A = (X, true)) :
    rescheduleStore (p :: rest) A = rescheduleStore rest X := by
  simp only [rescheduleStore, h]

theorem rescheduleUser_safe (uid : String) (meds : List Medicine) :
    ∀ (A : Finset String),
      (meds.flatMap (fun m => allKeyList uid m)).Nodup →
      (∀ k ∈ meds.flatMap (fun m => allKeyList uid m), k ∉ A) →
      (∀ m ∈ meds, ∀ t ∈ m.times, timeCronSafe t = true) →
      rescheduleUser uid meds A
        = (A ∪ (meds.flatMap (fun m => validKeyList uid m)).toFinset, true) := by
  induction meds with
  | nil => intro A _ _ _; simp [rescheduleUser]
  | cons m rest ih =>
    intro A hnd hdisj hsafe
    rw [List.flatMap_cons] at hnd hdisj
    have hnd2 := (List.nodup_append.mp hnd).2.1
    have hdj : (allKeyList uid m).Disjoint (rest.flatMap (fun m => allKeyList uid m)) :=
      (List.nodup_append.mp hnd).2.2
    have hA : Disjoint A ((allKeyList uid m).toFinset) := by
      rw [Finset.disjoint_right]
      intro k hk
      exact hdisj k (List.mem_append_left _ (List.mem_toFinset.mp hk))
    have hsch : schedule_med_jobs uid m A
        = (A ∪ (validKeyList uid m).toFinset, true) := by
      rw [schedule_med_jobs_safe uid m A (hsafe m (List.mem_cons_self _ _)),
        Finset.sdiff_eq_self_iff_disjoint.mpr hA]
    rw [rescheduleUser_cons_true uid m rest A _ hsch]
    rw [ih (A ∪ (validKeyList uid m).toFinset) hnd2 ?_
      (fun q hq => hsafe q (List.mem_cons_of_mem _ hq))]
    · rw [Finset.union_assoc, ← List.toFinset_append, ← List.flatMap_cons]
    · intro k hk
      simp only [Finset.mem_union, not_or, List.mem_toFinset]
      refine ⟨hdisj k (List.mem_append_right _ hk), fun hv => ?_⟩
      exact hdj (mem_allKeyList_of_mem_valid hv) hk

theorem rescheduleStore_safe (st : Store) :
    ∀ (A : Finset String),
      (storeKeyList st).Nodup →
      (∀ k ∈ storeKeyList st, k ∉ A) →
      (∀ p ∈ st, ∀ m ∈ p.2.medicines, ∀ t ∈ m.times, timeCronSafe t = true) →
      rescheduleStore st A = (A ∪ (storeValidList st).toFinset, true) := by
  induction st with
  | nil => intro A _ _ _; simp [rescheduleStore, storeValidList]
  | cons p rest ih =>
    intro A hnd hdisj hsafe
    have hsplit : storeKeyList (p :: rest)
        = p.2.medicines.flatMap (fun m => allKeyList p.1 m) ++ storeKeyList rest := by
      simp [storeKeyList]
    rw [hsplit] at hnd hdisj
    have hnd2 := (List.nodup_append.mp hnd).2.1
    have hdj := (List.nodup_append.mp hnd).2.2
    have huser := rescheduleUser_safe p.1 p.2.medicines A (List.nodup_append.mp hnd).1
      (fun k hk => hdisj k (List.mem_append_left _ hk))
      (fun m hm => hsafe p (List.mem_cons_self _ _) m hm)
    rw [rescheduleStore_cons_true p rest A _ huser]
    rw [ih (A ∪ (p.2.medicines.flatMap (fun m => validKeyList p.1 m)).toFinset) hnd2 ?_
      (fun q hq => hsafe q (List.mem_cons_of_mem _ hq))]
    · have hv : storeValidList (p :: rest)
          = p.2.medicines.flatMap (fun m => validKeyList p.1 m) ++ storeValidList rest := by
        simp [storeValidList]
      rw [hv, List.toFinset_append, Finset.union_assoc]
    · intro k hk
      simp only [Finset.mem_union, not_or, List.mem_toFinset]
      refine ⟨hdisj k (List.mem_append_right _ hk), fun hv => ?_⟩
      have hk2 : k ∈ p.2.medicines.flatMap (fun m => allKeyList p.1 m) := by
        rw [List.mem_flatMap] at hv ⊢
        obtain ⟨m, hm, hkm⟩ := hv
        exact ⟨m, hm, mem_allKeyList_of_mem_valid hkm⟩
      exact hdj hk2 hk

end Medibot
namespace Medibot

theorem toList_append (a b : String) : (a ++ b).toList = a.toList ++ b.toList :=
  String.data_append a b

/-- Every derived job id contains `"__"`, so `reschedule_all`'s ownership
test recognises every job this subsystem creates. -/
theorem hasDunder_jobKey (uid medId hhmm : String) (idx : Nat) :
    hasDunder (jobKey uid medId hhmm idx) := by
  show ['_', '_'] <:+:
    ((uid ++ "__" ++ medId ++ "__" ++ stripColons hhmm ++ "__" ++ Nat.repr idx).toList.map
      sanitizeChar)
  have hdd : ("__" : String).toList = ['_', '_'] := rfl
  have h1 : ['_', '_'] <:+:
      (uid ++ "__" ++ medId ++ "__" ++ stripColons hhmm ++ "__" ++ Nat.repr idx).toList := by
    refine ⟨uid.toList,
      medId.toList ++ ['_', '_'] ++ (stripColons hhmm).toList ++ ['_', '_'] ++
        (Nat.repr idx).toList, ?_⟩
    simp [toList_append, hdd, List.append_assoc]
  have h2 := h1.map sanitizeChar
  have hmap : List.map sanitizeChar ['_', '_'] = ['_', '_'] := rfl
  rwa [hmap] at h2

theorem flatMap_sublist {α β : Type} (l : List α) (f g : α → List β)
    (h : ∀ a, (f a).Sublist (g a)) : (l.flatMap f).Sublist (l.flatMap g) := by
  induction l with
  | nil => simp
  | cons a rest ih => simpa using (h a).append ih

theorem validKeyList_sublist (uid : String) (med : Medicine) :
    (validKeyList uid med).Sublist (allKeyList uid med) :=
  List.Sublist.map _ (List.filter_sublist _)

theorem storeValidList_sublist (st : Store) :
    (storeValidList st).Sublist (storeKeyList st) :=
  flatMap_sublist _ _ _ fun p =>
    flatMap_sublist _ _ _ fun m => validKeyList_sublist p.1 m

theorem mem_storeKeyList_hasDunder (st : Store) (x : String)
    (hx : x ∈ storeKeyList st) : hasDunder x := by
  simp only [storeKeyList, List.mem_flatMap] at hx
  obtain ⟨p, _, m, _, hk⟩ := hx
  simp only [allKeyList, List.mem_map] at hk
  obtain ⟨q, _, rfl⟩ := hk
  exact hasDunder_jobKey p.1 m.id q.2 q.1

/-- C5 (amended): when the derived job keys of the store are pairwise
distinct and every stored time entry is cron-safe (unparseable, or with
hour and minute inside the cron ranges), `reschedule_all` returns normally
and yields exactly the foreign jobs (ids without `"__"`, untouched) plus
one job per parseable time entry of the store — counted, exactly
`(storeValidList st).length` subsystem-owned jobs.  Without the
cron-safety condition a parseable out-of-range entry makes the unguarded
`add_job` loop raise, aborting the rebuild mid-way. -/
theorem c5_rebuild_exact (st : Store) (js : Finset String)
    (hnd : (storeKeyList st).Nodup)
    (hsafe : ∀ p ∈ st, ∀ m ∈ p.2.medicines, ∀ t ∈ m.times, timeCronSafe t = true) :
    reschedule_all st js
        = (js.filter (fun j => ¬ hasDunder j) ∪ (storeValidList st).toFinset, true)
      ∧ ((reschedule_all st js).1.filter (fun j => hasDunder j)).card
          = (storeValidList st).length
      ∧ (reschedule_all st js).1.filter (fun j => ¬ hasDunder j)
          = js.filter (fun j => ¬ hasDunder j) := by
  have hndV : (storeValidList st).Nodup := hnd.sublist (storeValidList_sublist st)
  have hmemV : ∀ x ∈ storeValidList st, hasDunder x := fun x hx =>
    mem_storeKeyList_hasDunder st x ((storeValidList_sublist st).subset hx)
  have hmain : reschedule_all st js
      = (js.filter (fun j => ¬ hasDunder j) ∪ (storeValidList st).toFinset, true) := by
    unfold reschedule_all
    exact rescheduleStore_safe st (js.filter (fun j => ¬ hasDunder j)) hnd
      (fun k hk hmem => (Finset.mem_filter.mp hmem).2 (mem_storeKeyList_hasDunder st k hk))
      hsafe
  have h1 : (reschedule_all st js).1
      = js.filter (fun j => ¬ hasDunder j) ∪ (storeValidList st).toFinset := by
    rw [hmain]
  refine ⟨hmain, ?_, ?_⟩
  · have hfil : (reschedule_all st js).1.filter (fun j => hasDunder j)
        = (storeValidList st).toFinset := by
      ext x
      simp only [h1, Finset.mem_filter, Finset.mem_union, List.mem_toFinset]
      constructor
      · rintro ⟨h1 | h1, hd⟩
        · exact absurd hd h1.2
        · exact h1
      · intro hx
        exact ⟨Or.inr hx, hmemV x hx⟩
    rw [hfil, List.toFinset_card_of_nodup hndV]
  · ext x
    simp only [h1, Finset.mem_filter, Finset.mem_union, List.mem_toFinset]
    constructor
    · rintro ⟨h1 | h1, hd⟩
      · exact h1
      · exact absurd (hmemV x h1) hd
    · intro h
      exact ⟨Or.inl h, h.2⟩

end Medibot
namespace Medibot

/-!  The `HH:MM` invariant (claim C1) and its preservation. -/

/-- Every time string of a list is a valid `HH:MM`. -/
def timesOK (l : List String) : Prop := ∀ t ∈ l, validHHMM t = true

/-- The scratch object's collected times and pending candidate are valid. -/
def tempOK : Option Temp → Prop
  | none => True
  | some t => timesOK (t.timesT.getD []) ∧ ∀ c ∈ t.candidate, validHHMM c = true

/-- A user record satisfying the time invariant: every stored medicine time
and every scratch time is a valid `HH:MM`. -/
def userOK (u : UserRec) : Prop :=
  (∀ med ∈ u.medicines, timesOK med.times) ∧ tempOK u.temp

/-- The time invariant over a whole store. -/
def storeOK (st : Store) : Prop := ∀ p ∈ st, userOK p.2

set_option maxHeartbeats 2000000 in
theorem pad2_ok : ∀ (a : Fin 24) (b : Fin 60),
    validHHMM (pad2 ((a : Nat) : Int) ++ ":" ++ pad2 ((b : Nat) : Int)) = true := by decide

theorem pad2_validHHMM (h m : Int) (h0 : 0 ≤ h) (h1 : h < 24) (m0 : 0 ≤ m) (m1 : m < 60) :
    validHHMM (pad2 h ++ ":" ++ pad2 m) = true := by
  obtain ⟨hn, rfl⟩ : ∃ hn : Fin 24, h = ((hn : Nat) : Int) :=
    ⟨⟨h.toNat, by omega⟩, by simp [Int.toNat_of_nonneg h0]⟩
  obtain ⟨mn, rfl⟩ : ∃ mn : Fin 60, m = ((mn : Nat) : Int) :=
    ⟨⟨m.toNat, by omega⟩, by simp [Int.toNat_of_nonneg m0]⟩
  exact pad2_ok hn mn

theorem validHHMM_ranges {s : String} {h m : Int} (hv : validHHMM s = true)
    (hp : parseTime2 s = some (h, m)) : 0 ≤ h ∧ h < 24 ∧ 0 ≤ m ∧ m < 60 := by
  unfold validHHMM at hv
  rw [hp] at hv
  simp only [Bool.and_eq_true, decide_eq_true_eq] at hv
  exact ⟨hv.1.1.1, hv.1.1.2, hv.1.2, hv.2⟩

theorem mem_updateFirstMed {meds : List Medicine} {mid : String} {f : Medicine → Medicine}
    {x : Medicine} (hx : x ∈ updateFirstMed meds mid f) :
    x ∈ meds ∨ ∃ m, m ∈ meds ∧ x = f m := by
  induction meds with
  | nil => simp [updateFirstMed] at hx
  | cons m rest ih =>
    unfold updateFirstMed at hx
    by_cases hid : m.id = mid
    · rw [if_pos hid] at hx
      rcases List.mem_cons.mp hx with h | h
      · exact Or.inr ⟨m, List.mem_cons_self m rest, h⟩
      · exact Or.inl (List.mem_cons_of_mem m h)
    · rw [if_neg hid] at hx
      rcases List.mem_cons.mp hx with h | h
      · exact Or.inl (h ▸ List.mem_cons_self m rest)
      · rcases ih h with h' | ⟨m', hm', rfl⟩
        · exact Or.inl (List.mem_cons_of_mem m h')
        · exact Or.inr ⟨m', List.mem_cons_of_mem m hm', rfl⟩

theorem updateFirstMed_timesOK {meds : List Medicine} {mid : String} {f : Medicine → Medicine}
    (hmeds : ∀ med ∈ meds, timesOK med.times) (hf : ∀ m, (f m).times = m.times) :
    ∀ med ∈ updateFirstMed meds mid f, timesOK med.times := by
  intro med hmed
  rcases mem_updateFirstMed hmed with h | ⟨m, hm, rfl⟩
  · exact hmeds med h
  · rw [hf m]
    exact hmeds m hm

theorem restDelete_userOK {u : UserRec} (text : String) (js : Finset String)
    (hok : userOK u) : userOK (restDelete u text js).1 := by
  unfold restDelete
  repeat' split
  all_goals exact hok

end Medibot
namespace Medibot

theorem appendTimeStep_userOK (nowMs : Nat) (uid hhmm24 : String) (u : UserRec) (t : Temp)
    (js : Finset String) (hok : userOK u) (heq : u.temp = some t)
    (hv : validHHMM hhmm24 = true) :
    userOK (appendTimeStep nowMs uid hhmm24 u t js).1 := by
  have h2 := hok.2
  rw [heq] at h2
  have happend : timesOK (t.timesT.getD [] ++ [hhmm24]) := by
    intro x hx
    rcases List.mem_append.mp hx with hxl | hxr
    · exact h2.1 x hxl
    · rw [List.mem_singleton] at hxr
      subst hxr
      exact hv
  unfold appendTimeStep
  split
  · exact ⟨hok.1, happend, h2.2⟩
  · split
    · exact ⟨hok.1, happend, h2.2⟩
    · split
      · exact ⟨hok.1, happend, fun c hc => by simp at hc⟩
      · split
        · split
          · refine ⟨?_, trivial⟩
            intro med hmed
            rcases List.mem_append.mp hmed with hml | hmr
            · exact hok.1 med hml
            · rw [List.mem_singleton] at hmr
              subst hmr
              exact happend
          · refine ⟨?_, happend, fun c hc => by simp at hc⟩
            intro med hmed
            rcases List.mem_append.mp hmed with hml | hmr
            · exact hok.1 med hml
            · rw [List.mem_singleton] at hmr
              subst hmr
              exact happend
        · exact ⟨hok.1, happend, fun c hc => by simp at hc⟩

theorem medTimePeriodStep_userOK (nowMs : Nat) (uid text : String) (u : UserRec)
    (js : Finset String) (hok : userOK u) :
    userOK (medTimePeriodStep nowMs uid text u js).1 := by
  unfold medTimePeriodStep
  split
  · exact hok
  · rename_i t heq
    split
    · exact hok
    · rename_i cand hcand
      split
      · exact hok
      · rename_i hh mm hparse
        have h2 := hok.2
        rw [heq] at h2
        have hcv : validHHMM cand = true := h2.2 cand (by rw [hcand]; rfl)
        obtain ⟨r1, r2, r3, r4⟩ := validHHMM_ranges hcv hparse
        split
        · apply appendTimeStep_userOK nowMs uid _ u t js hok heq
          apply pad2_validHHMM _ mm _ _ r3 r4
          · split <;> split <;> omega
          · split <;> split <;> omega
        · exact hok

end Medibot
namespace Medibot


end Medibot
namespace Medibot

theorem smDeleteTail_userOK (uid text : String) (u : UserRec) (js : Finset String)
    (hok : userOK u) : userOK (smDeleteTail uid text u js).1 := by
  unfold smDeleteTail
  repeat' split
  all_goals try exact hok
  refine ⟨?_, hok.2⟩
  intro med hmed
  exact hok.1 med (List.mem_of_mem_erase hmed)

theorem smEdit_userOK (uid text : String) (u : UserRec) (js : Finset String)
    (hok : userOK u) (hstep : u.step ≠ some "edit_times") :
    userOK (smEdit uid text u js).1 := by
  unfold smEdit
  repeat' split
  all_goals try exact hok
  all_goals try exact restDelete_userOK text js hok
  all_goals try exact smDeleteTail_userOK uid text u js hok
  all_goals exact ⟨updateFirstMed_timesOK hok.1 (fun m => rfl), hok.2⟩

theorem smMeds_userOK (uid text : String) (u : UserRec) (js : Finset String)
    (hok : userOK u) (hstep : u.step ≠ some "edit_times") :
    userOK (smMeds uid text u js).1 := by
  unfold smMeds
  repeat' split
  all_goals try exact hok
  all_goals exact smEdit_userOK uid text u js hok hstep

theorem smAdd_userOK (nowMs : Nat) (uid text : String) (u : UserRec) (js : Finset String)
    (hok : userOK u) (hstep : u.step ≠ some "edit_times") :
    userOK (smAdd nowMs uid text u js).1 := by
  unfold smAdd
  repeat' split
  all_goals try exact hok
  all_goals try exact medTimePeriodStep_userOK nowMs uid text u js hok
  all_goals try exact smMeds_userOK uid text u js hok hstep
  -- remaining: med_name, med_dose, med_times_count, med_time_input
  · -- med_name: a fresh scratch object with empty time list
    exact ⟨hok.1, fun x hx => by simp at hx, fun c hc => by simp at hc⟩
  · -- med_dose with scratch object present: only the dose field changes
    rename_i t heq
    have h2 := hok.2
    rw [heq] at h2
    exact ⟨hok.1, h2⟩
  · -- med_times_count: the scratch time list is reset to []
    rename_i t heq
    have h2 := hok.2
    rw [heq] at h2
    exact ⟨hok.1, fun x hx => by simp at hx, h2.2⟩
  · -- med_time_input: the candidate just stored was validated by this branch
    rename_i hh mm hpar hnn x t heq
    have h2 := hok.2
    rw [heq] at h2
    refine ⟨hok.1, h2.1, ?_⟩
    intro c hc
    rw [Option.mem_def, Option.some.injEq] at hc
    subst hc
    rw [not_not] at hnn
    unfold validHHMM
    rw [hpar]
    simp only [Bool.and_eq_true, decide_eq_true_eq]
    exact ⟨⟨⟨hnn.1, hnn.2.1⟩, hnn.2.2.1⟩, hnn.2.2.2⟩

end Medibot
namespace Medibot

theorem smReg_userOK (nowMs : Nat) (uid text : String) (u : UserRec)
    (js : Finset String) (hok : userOK u) (hstep : u.step ≠ some "edit_times") :
    userOK (smReg nowMs uid text u js).1 := by
  unfold smReg
  repeat' split
  all_goals try exact hok
  all_goals exact smAdd_userOK nowMs uid text u js hok hstep

theorem smUser_userOK (nowMs : Nat) (uid text : String) (u : UserRec)
    (js : Finset String) (hok : userOK u) (hstep : u.step ≠ some "edit_times") :
    userOK (smUser nowMs uid text u js).1 := by
  unfold smUser
  repeat' split
  all_goals try exact hok
  all_goals exact smReg_userOK nowMs uid text u js hok hstep

theorem storeOK_storeSet (st : Store) (uid : String) (u : UserRec)
    (hok : storeOK st) (hu : userOK u) : storeOK (storeSet st uid u) := by
  induction st with
  | nil =>
    intro p hp
    simp only [storeSet, List.mem_singleton] at hp
    subst hp
    exact hu
  | cons q rest ih =>
    obtain ⟨k, v⟩ := q
    intro p hp
    unfold storeSet at hp
    by_cases hk : k = uid
    · rw [if_pos hk] at hp
      rcases List.mem_cons.mp hp with h | h
      · subst h; exact hu
      · exact hok p (List.mem_cons_of_mem _ h)
    · rw [if_neg hk] at hp
      rcases List.mem_cons.mp hp with h | h
      · subst h; exact hok (k, v) (List.mem_cons_self _ _)
      · exact ih (fun q hq => hok q (List.mem_cons_of_mem _ hq)) p h

theorem storeOK_ensure_user (uid : String) (st : Store) (hok : storeOK st) :
    storeOK (ensure_user uid st) := by
  unfold ensure_user
  split
  · exact hok
  · intro p hp
    rcases List.mem_append.mp hp with h | h
    · exact hok p h
    · rw [List.mem_singleton] at h
      subst h
      exact ⟨fun med hmed => by simp [defaultUser] at hmed, trivial⟩

theorem userOK_lookup {st : Store} {uid : String} {u : UserRec} (hok : storeOK st)
    (h : st.lookup uid = some u) : userOK u := by
  induction st with
  | nil => simp [List.lookup] at h
  | cons p rest ih =>
    obtain ⟨k, v⟩ := p
    by_cases hk : uid = k
    · subst hk
      simp only [List.lookup, beq_self_eq_true] at h
      cases h
      exact hok (uid, u) (List.mem_cons_self _ _)
    · have hb : (uid == k) = false := beq_eq_false_iff_ne.mpr hk
      simp only [List.lookup, hb] at h
      exact ih (fun q hq => hok q (List.mem_cons_of_mem _ hq)) h

end Medibot
namespace Medibot

instance (l : List String) : Decidable (timesOK l) :=
  (inferInstance : Decidable (∀ t ∈ l, validHHMM t = true))

instance (t : Option Temp) : Decidable (tempOK t) :=
  match t with
  | none => isTrue trivial
  | some t =>
    (inferInstance : Decidable (timesOK (t.timesT.getD []) ∧ ∀ c ∈ t.candidate, validHHMM c = true))

instance (u : UserRec) : Decidable (userOK u) :=
  (inferInstance : Decidable ((∀ med ∈ u.medicines, timesOK med.times) ∧ tempOK u.temp))

instance (st : Store) : Decidable (storeOK st) :=
  (inferInstance : Decidable (∀ p ∈ st, userOK p.2))

theorem state_machine_store (nowMs : Nat) (uid raw : String) (st : Store)
    (js : Finset String) :
    (state_machine nowMs uid raw st js).store
      = storeSet (ensure_user uid st) uid
          (smUser nowMs uid (pyStrip raw)
            (((ensure_user uid st).lookup uid).getD defaultUser) js).1 := rfl

/-- C1 (amended): the `HH:MM` 0≤HH<24 / 0≤MM<60 invariant over every stored
and scratch time string is preserved by every text-message transition except
the `edit_times` step — in particular by the whole add-medicine sub-flow
(`med_time_input` validation plus `med_time_period` conversion).  The
`edit_times` step itself stores the comma-split input unvalidated and
breaks the invariant (see the counterexample). -/
theorem c1_invariant_preserved_except_edit_times (nowMs : Nat) (uid raw : String)
    (st : Store) (js : Finset String) (hok : storeOK st)
    (hstep : ((st.lookup uid).getD defaultUser).step ≠ some "edit_times") :
    storeOK (state_machine nowMs uid raw st js).store := by
  rw [state_machine_store]
  refine storeOK_storeSet _ _ _ (storeOK_ensure_user uid st hok) ?_
  cases hlu : st.lookup uid with
  | some u =>
    rw [ensure_user_of_mem uid st u hlu, hlu]
    rw [hlu] at hstep
    exact smUser_userOK _ _ _ _ _ (userOK_lookup hok hlu) hstep
  | none =>
    rw [ensure_user_lookup_none uid st hlu, lookup_append_of_none _ hlu]
    rw [hlu] at hstep
    simp only [List.lookup, beq_self_eq_true, Option.getD_some]
    exact smUser_userOK _ _ _ _ _
      ⟨fun med hmed => by simp [defaultUser] at hmed, trivial⟩
      (by simp [defaultUser])

/-- Concrete user mid add-flow, used by the C1 witness. -/
def c1WitnessUser : UserRec where
  step := some "med_time_period"
  temp := some { nameT := some "a", doseT := some "d", times_needed := some 1,
                 times_collected := some 0, timesT := some [], candidate := some "03:00" }
  medicines := [⟨"7", "b", "d", ["08:00"]⟩]

/-- C1 witness: a concrete user mid add-flow; a valid evening time input
keeps the whole store invariant-clean. -/
theorem c1_invariant_preserved_witness :
    storeOK [("1", c1WitnessUser)]
      ∧ storeOK (state_machine 5 "1" "مساءً" [("1", c1WitnessUser)] ∅).store :=
  ⟨by decide,
   c1_invariant_preserved_except_edit_times 5 "1" "مساءً" [("1", c1WitnessUser)] ∅
     (by decide) (by decide)⟩

/-- Concrete user sitting at the `edit_times` step, used by the C1
counterexample. -/
def c1EditUser : UserRec where
  step := some "edit_times"
  edit_med_id := some "7"
  medicines := [⟨"7", "med", "dose", ["08:00"]⟩]

/-- C1 counterexample: the claim as stated is false — the `edit_times` step
stores `"aa"` with no `HH:MM` validation at all (the scheduler merely skips
an unparseable entry, so the handler completes and reports success),
destroying the invariant on a store that satisfied it. -/
theorem c1_edit_times_counterexample :
    storeOK [("1", c1EditUser)]
    ∧ ¬ storeOK (state_machine 0 "1" "aa" [("1", c1EditUser)] ∅).store
    ∧ (state_machine 0 "1" "aa" [("1", c1EditUser)] ∅).store
      = [("1", { step := some "in_mymeds", edit_med_id := some "7",
                 medicines := [⟨"7", "med", "dose", ["aa"]⟩] })]
    ∧ (state_machine 0 "1" "aa" [("1", c1EditUser)] ∅).sent
      = ["تم تعديل الأوقات."] := by decide

end Medibot
namespace Medibot

/-!  Reduction lemmas: stepping one inbound message through the chain. -/

theorem state_machine_of_mem (nowMs : Nat) (uid raw : String) (st : Store)
    (js : Finset String) (u : UserRec) (hlu : st.lookup uid = some u) :
    (state_machine nowMs uid raw st js).store
        = storeSet st uid (smUser nowMs uid (pyStrip raw) u js).1
      ∧ (state_machine nowMs uid raw st js).jobs
          = (smUser nowMs uid (pyStrip raw) u js).2.1
      ∧ (state_machine nowMs uid raw st js).sent
          = (smUser nowMs uid (pyStrip raw) u js).2.2 := by
  unfold state_machine
  rw [ensure_user_of_mem uid st u hlu, hlu]
  exact ⟨rfl, rfl, rfl⟩

theorem smUser_not_button (nowMs : Nat) (uid text : String) (u : UserRec)
    (js : Finset String)
    (h1 : text ≠ "أدويتي") (h2 : text ≠ "💳 الباقات")
    (h3 : text ≠ "🔙 الرجوع إلى القائمة السابقة") (h4 : text ≠ "🔙 رجوع")
    (h5 : text ≠ "رجوع") :
    smUser nowMs uid text u js = smReg nowMs uid text u js := by
  unfold smUser
  rw [if_neg h1, if_neg h2, if_neg (by simp [h3, h4, h5])]

theorem smReg_to_smAdd (nowMs : Nat) (uid text : String) (u : UserRec)
    (js : Finset String) (s : String) (hstep : u.step = some s)
    (hs : s ≠ "get_name" ∧ s ≠ "get_phone" ∧ s ≠ "get_age" ∧ s ≠ "get_email" ∧
      s ≠ "choose_country" ∧ s ≠ "awaiting_payment" ∧ s ≠ "post_signup" ∧
      s ≠ "menu" ∧ s ≠ "in_mymeds") :
    smReg nowMs uid text u js = smAdd nowMs uid text u js := by
  obtain ⟨n1, n2, n3, n4, n5, n6, n7, n8, n9⟩ := hs
  unfold smReg
  rw [if_neg (by simp [hstep, n1]), if_neg (by simp [hstep, n2]),
    if_neg (by simp [hstep, n3]), if_neg (by simp [hstep, n4]),
    if_neg (by simp [hstep, n5]), if_neg (by simp [hstep, n6]),
    if_neg (by simp [hstep, n7, n8]), if_neg (by simp [hstep, n9])]

theorem smAdd_to_smMeds (nowMs : Nat) (uid text : String) (u : UserRec)
    (js : Finset String) (s : String) (hstep : u.step = some s)
    (hs : s ≠ "med_name" ∧ s ≠ "med_dose" ∧ s ≠ "med_times_count" ∧
      s ≠ "med_time_input" ∧ s ≠ "med_time_period") :
    smAdd nowMs uid text u js = smMeds uid text u js := by
  obtain ⟨n1, n2, n3, n4, n5⟩ := hs
  unfold smAdd
  rw [if_neg (by simp [hstep, n1]), if_neg (by simp [hstep, n2]),
    if_neg (by simp [hstep, n3]), if_neg (by simp [hstep, n4]),
    if_neg (by simp [hstep, n5])]

theorem smMeds_to_smEdit (uid text : String) (u : UserRec) (js : Finset String)
    (s : String) (hstep : u.step = some s) (hs : s ≠ "view_meds")
    (t1 : text ≠ "📋 عرض الأدوية") (t2 : text ≠ "➕ إضافة دواء")
    (t3 : text ≠ "✏️ تعديل دواء") :
    smMeds uid text u js = smEdit uid text u js := by
  unfold smMeds
  rw [if_neg (by simp [hstep, hs, t1]), if_neg t2, if_neg t3]

theorem smEdit_to_smDeleteTail (uid text : String) (u : UserRec) (js : Finset String)
    (s : String) (hstep : u.step = some s)
    (hs : s ≠ "choose_edit" ∧ s ≠ "edit_field" ∧ s ≠ "edit_name" ∧
      s ≠ "edit_dose" ∧ s ≠ "edit_times") :
    smEdit uid text u js = smDeleteTail uid text u js := by
  obtain ⟨n1, n2, n3, n4, n5⟩ := hs
  unfold smEdit
  rw [if_neg (by simp [hstep, n1]), if_neg (by simp [hstep, n2]),
    if_neg (by simp [hstep, n3]), if_neg (by simp [hstep, n4]),
    if_neg (by simp [hstep, n5])]

end Medibot
namespace Medibot

/-- The phone-acceptance rule exactly as claim C2 states it (modelled from
the claim's words, for refutation): the text starts with `+` or with a
leading digit, and nothing else is checked. -/
def phoneAcceptSpec (text : String) : Bool :=
  strStartsWith text "+" ||
    (match text.toList with
     | c :: _ => c.isDigit
     | [] => false)

/-- A user waiting at the phone step, for the C2 theorems. -/
def c2User : UserRec where
  step := some "get_phone"

/-- C2 counterexample: the code's phone check is `text.startswith("+") and
len(text) >= 7`, so a digit-leading number is rejected (re-prompt, no state
change) although the claim accepts it, and a short `+`-number shows length
validation the claim denies. -/
theorem c2_phone_counterexample :
    phoneAcceptSpec "0123456789" = true
    ∧ (state_machine 0 "1" "0123456789" [("1", c2User)] ∅).store = [("1", c2User)]
    ∧ (state_machine 0 "1" "0123456789" [("1", c2User)] ∅).sent
        = ["الرجاء إدخال رقم هاتف صحيح مع رمز الدولة مثل: +201XXXXXXXXX"]
    ∧ phoneAcceptSpec "+123" = true
    ∧ (state_machine 0 "1" "+123" [("1", c2User)] ∅).store = [("1", c2User)] := by decide

/-- C2 (amended): at the phone step an inbound text (other than the global
navigation texts) is accepted iff it starts with `+` and has length at
least 7; accepted input is stored and the step advances to `get_age`; any
other input is rejected with a re-prompt and no state change. -/
theorem c2_phone_validation (nowMs : Nat) (uid raw : String) (st : Store)
    (js : Finset String) (u : UserRec)
    (hstrip : pyStrip raw = raw) (hlu : st.lookup uid = some u)
    (hstep : u.step = some "get_phone")
    (h1 : raw ≠ "أدويتي") (h2 : raw ≠ "💳 الباقات")
    (h3 : raw ≠ "🔙 الرجوع إلى القائمة السابقة") (h4 : raw ≠ "🔙 رجوع")
    (h5 : raw ≠ "رجوع") :
    (strStartsWith raw "+" = true ∧ 7 ≤ raw.length →
        (state_machine nowMs uid raw st js).store
            = storeSet st uid { u with phone := some raw, step := some "get_age" }
          ∧ (state_machine nowMs uid raw st js).jobs = js
          ∧ (state_machine nowMs uid raw st js).sent = ["أدخل عمرك (أرقام فقط):"])
    ∧ (¬ (strStartsWith raw "+" = true ∧ 7 ≤ raw.length) →
        (state_machine nowMs uid raw st js).store = st
          ∧ (state_machine nowMs uid raw st js).jobs = js
          ∧ (state_machine nowMs uid raw st js).sent
              = ["الرجاء إدخال رقم هاتف صحيح مع رمز الدولة مثل: +201XXXXXXXXX"]) := by
  obtain ⟨hs, hj, hm⟩ := state_machine_of_mem nowMs uid raw st js u hlu
  rw [hstrip, smUser_not_button nowMs uid raw u js h1 h2 h3 h4 h5] at hs hj hm
  unfold smReg at hs hj hm
  rw [if_neg (by simp [hstep]), if_pos hstep] at hs hj hm
  constructor
  · rintro ⟨ha, hlen⟩
    rw [if_neg (fun hcon => hcon.elim (fun h => h ha) (fun h => by omega))] at hs hj hm
    exact ⟨hs, hj, hm⟩
  · intro hrej
    have hcond : ¬ strStartsWith raw "+" = true ∨ raw.length < 7 := by
      by_cases hA : strStartsWith raw "+" = true
      · right
        by_contra hlen
        exact hrej ⟨hA, by omega⟩
      · exact Or.inl hA
    rw [if_pos hcond] at hs hj hm
    rw [storeSet_lookup_eq st uid u hlu] at hs
    exact ⟨hs, hj, hm⟩

/-- C2 witness: a well-formed international number is accepted at the phone
step and stored verbatim. -/
theorem c2_phone_validation_witness :
    (state_machine 0 "1" "+20100000000" [("1", c2User)] ∅).store
        = storeSet [("1", c2User)] "1"
            { c2User with phone := some "+20100000000", step := some "get_age" }
      ∧ (state_machine 0 "1" "+20100000000" [("1", c2User)] ∅).jobs = ∅
      ∧ (state_machine 0 "1" "+20100000000" [("1", c2User)] ∅).sent
          = ["أدخل عمرك (أرقام فقط):"] :=
  (c2_phone_validation 0 "1" "+20100000000" [("1", c2User)] ∅ c2User (by decide) (by decide)
      (by decide) (by decide) (by decide) (by decide) (by decide) (by decide)).1
    ⟨by decide, by decide⟩

end Medibot
namespace Medibot

theorem smAdd_at_period (nowMs : Nat) (uid text : String) (u : UserRec)
    (js : Finset String) (hstep : u.step = some "med_time_period") :
    smAdd nowMs uid text u js = medTimePeriodStep nowMs uid text u js := by
  unfold smAdd
  rw [if_neg (by simp [hstep]), if_neg (by simp [hstep]), if_neg (by simp [hstep]),
    if_neg (by simp [hstep]), if_pos hstep]

/-- C3 (amended): at the period-selection step with a parsed candidate time
`(hh, mm)`, the token `صباحًا` (morning) converts the hour to `0` when
`hh = 12` and keeps it otherwise; the token `مساءً` (evening) adds 12 when
`hh < 12` and keeps the hour otherwise; and any other token except the
globally intercepted navigation texts is rejected with a re-prompt and no
state change. -/
theorem c3_period_conversion (nowMs : Nat) (uid raw : String) (st : Store)
    (js : Finset String) (u : UserRec) (t : Temp) (cand : String) (hh mm : Int)
    (hstrip : pyStrip raw = raw) (hlu : st.lookup uid = some u)
    (hstep : u.step = some "med_time_period")
    (htemp : u.temp = some t) (hcand : t.candidate = some cand)
    (hparse : parseTime2 cand = some (hh, mm))
    (h1 : raw ≠ "أدويتي") (h2 : raw ≠ "💳 الباقات")
    (h3 : raw ≠ "🔙 الرجوع إلى القائمة السابقة") (h4 : raw ≠ "🔙 رجوع")
    (h5 : raw ≠ "رجوع") :
    (raw = "صباحًا" →
        (state_machine nowMs uid raw st js).store
            = storeSet st uid
                (appendTimeStep nowMs uid
                  (pad2 (if hh = 12 then 0 else hh) ++ ":" ++ pad2 mm) u t js).1
          ∧ (state_machine nowMs uid raw st js).jobs
              = (appendTimeStep nowMs uid
                  (pad2 (if hh = 12 then 0 else hh) ++ ":" ++ pad2 mm) u t js).2.1
          ∧ (state_machine nowMs uid raw st js).sent
              = (appendTimeStep nowMs uid
                  (pad2 (if hh = 12 then 0 else hh) ++ ":" ++ pad2 mm) u t js).2.2)
    ∧ (raw = "مساءً" →
        (state_machine nowMs uid raw st js).store
            = storeSet st uid
                (appendTimeStep nowMs uid
                  (pad2 (if hh < 12 then hh + 12 else hh) ++ ":" ++ pad2 mm) u t js).1
          ∧ (state_machine nowMs uid raw st js).jobs
              = (appendTimeStep nowMs uid
                  (pad2 (if hh < 12 then hh + 12 else hh) ++ ":" ++ pad2 mm) u t js).2.1
          ∧ (state_machine nowMs uid raw st js).sent
              = (appendTimeStep nowMs uid
                  (pad2 (if hh < 12 then hh + 12 else hh) ++ ":" ++ pad2 mm) u t js).2.2)
    ∧ (raw ≠ "صباحًا" → raw ≠ "مساءً" →
        (state_machine nowMs uid raw st js).store = st
          ∧ (state_machine nowMs uid raw st js).jobs = js
          ∧ (state_machine nowMs uid raw st js).sent
              = ["اختيار غير صالح. اختر صباحًا أو مساءً."]) := by
  obtain ⟨hs, hj, hm⟩ := state_machine_of_mem nowMs uid raw st js u hlu
  rw [hstrip, smUser_not_button nowMs uid raw u js h1 h2 h3 h4 h5,
    smReg_to_smAdd nowMs uid raw u js "med_time_period" hstep (by decide),
    smAdd_at_period nowMs uid raw u js hstep] at hs hj hm
  unfold medTimePeriodStep at hs hj hm
  simp only [htemp, hcand, hparse] at hs hj hm
  refine ⟨?_, ?_, ?_⟩
  · intro hmor
    subst hmor
    rw [if_pos (Or.inl rfl)] at hs hj hm
    rw [if_pos (by decide : ("صباحًا" : String) = "صباحًا")] at hs hj hm
    exact ⟨hs, hj, hm⟩
  · intro heve
    subst heve
    rw [if_pos (Or.inr rfl)] at hs hj hm
    rw [if_neg (by decide : ¬ ("مساءً" : String) = "صباحًا")] at hs hj hm
    exact ⟨hs, hj, hm⟩
  · intro hm1 hm2
    rw [if_neg (fun hcon => hcon.elim hm1 hm2)] at hs hj hm
    rw [storeSet_lookup_eq st uid u hlu] at hs
    exact ⟨hs, hj, hm⟩

/-- Scratch state for the C3 theorems: one time still to collect, candidate
`"12:15"`. -/
def c3Temp : Temp where
  nameT := some "a"
  doseT := some "d"
  times_needed := some 1
  times_collected := some 0
  timesT := some []
  candidate := some "12:15"

/-- A user at the period-selection step, for the C3 theorems. -/
def c3User : UserRec where
  step := some "med_time_period"
  temp := some c3Temp

/-- C3 witness: `"12:15"` plus morning stores `"00:15"` — the finalized
medicine carries exactly that converted time string. -/
theorem c3_period_conversion_witness :
    (state_machine 5 "1" "صباحًا" [("1", c3User)] ∅).store
        = [("1", { step := some "menu", medicines := [⟨"5", "a", "d", ["00:15"]⟩] })]
      ∧ (state_machine 5 "1" "صباحًا" [("1", c3User)] ∅).jobs = {"1__5__0015__0"}
      ∧ (state_machine 5 "1" "صباحًا" [("1", c3User)] ∅).sent
          = ["✅ تم إضافة الدواء وتم جدولة التذكيرات."] := by
  obtain ⟨ha, hb, hc⟩ :=
    (c3_period_conversion 5 "1" "صباحًا" [("1", c3User)] ∅ c3User c3Temp "12:15" 12 15
      (by decide) (by decide) (by decide) (by decide) (by decide) (by decide)
      (by decide) (by decide) (by decide) (by decide) (by decide)).1 rfl
  refine ⟨?_, ?_, ?_⟩
  · rw [ha]; decide
  · rw [hb]; decide
  · rw [hc]; decide

/-- C3 counterexample: the claim's "any other period token is rejected and
the same state re-prompts" is false — the globally intercepted token
`رجوع` is neither `صباحًا` nor `مساءً`, yet it moves the step to `menu`. -/
theorem c3_other_token_counterexample :
    ¬ (("رجوع" : String) = "صباحًا" ∨ ("رجوع" : String) = "مساءً")
    ∧ (state_machine 0 "1" "رجوع" [("1", c3User)] ∅).store
        = [("1", { c3User with step := some "menu" })]
    ∧ (state_machine 0 "1" "رجوع" [("1", c3User)] ∅).sent
        = ["تم الرجوع للقائمة الرئيسية."] := by decide

end Medibot
namespace Medibot

/-- Store for the C5 witness: one medicine, one parseable and one junk time
entry. -/
def c5WitnessStore : Store := [("1", { medicines := [⟨"7", "a", "d", ["08:00", "xx"]⟩] })]

/-- C5 witness: the witness store is nodup-keyed and cron-safe, and
rebuilding over a prior job set containing a foreign job and a stale
subsystem job returns normally with exactly the derivable jobs plus the
untouched foreign job. -/
theorem c5_rebuild_exact_witness :
    (storeKeyList c5WitnessStore).Nodup
    ∧ (∀ p ∈ c5WitnessStore, ∀ m ∈ p.2.medicines, ∀ t ∈ m.times, timeCronSafe t = true)
    ∧ (reschedule_all c5WitnessStore {"foreign.job", "1__9__0800__0"}
          = (Finset.filter (fun j => ¬ hasDunder j) {"foreign.job", "1__9__0800__0"}
              ∪ (storeValidList c5WitnessStore).toFinset, true)
      ∧ ((reschedule_all c5WitnessStore {"foreign.job", "1__9__0800__0"}).1.filter
            (fun j => hasDunder j)).card = (storeValidList c5WitnessStore).length
      ∧ (reschedule_all c5WitnessStore {"foreign.job", "1__9__0800__0"}).1.filter
            (fun j => ¬ hasDunder j)
          = Finset.filter (fun j => ¬ hasDunder j) {"foreign.job", "1__9__0800__0"}) :=
  ⟨by decide, by decide,
    c5_rebuild_exact c5WitnessStore {"foreign.job", "1__9__0800__0"} (by decide) (by decide)⟩

/-- Store for the C5 counterexample: two medicines with colliding
timestamp ids and an identical time entry — their derived job keys
coincide. -/
def c5CexStore : Store :=
  [("1", { medicines := [⟨"7", "a", "d", ["08:00"]⟩, ⟨"7", "b", "d", ["08:00"]⟩] })]

/-- C5 counterexample: this store has `T = 2` valid time entries, yet the
rebuild leaves only one live subsystem job, because the two entries derive
the same job key and `replace_existing` collapses them — refuting "exactly
T live jobs" for every store. -/
theorem c5_duplicate_key_counterexample :
    (storeValidList c5CexStore).length = 2
    ∧ ((reschedule_all c5CexStore ∅).1.filter (fun j => hasDunder j)).card = 1 := by decide

/-- C8: re-issuing `/start` on an existing user only rewrites the step to
`get_name`; the medicine list, the paid flag and every other user are
untouched. -/
theorem c8_restart_preserves (uid : String) (st : Store) (u : UserRec)
    (hlu : st.lookup uid = some u) :
    cmd_start uid st = storeSet st uid { u with step := some "get_name" }
    ∧ (cmd_start uid st).lookup uid = some { u with step := some "get_name" }
    ∧ (∀ k, k ≠ uid → (cmd_start uid st).lookup k = st.lookup k)
    ∧ ({ u with step := some "get_name" }).medicines = u.medicines
    ∧ ({ u with step := some "get_name" }).paid = u.paid := by
  unfold cmd_start
  rw [ensure_user_of_mem uid st u hlu, hlu]
  exact ⟨rfl, lookup_storeSet_self st uid _,
    fun k hk => lookup_storeSet_ne st uid k _ hk, rfl, rfl⟩

/-- A registered, paid user with one medicine, for the C8 witness. -/
def c8User : UserRec where
  step := some "menu"
  paid := true
  medicines := [⟨"7", "a", "d", ["08:00"]⟩]

/-- C8 witness: `/start` on that user resets the step and keeps the
medicine list and paid flag. -/
theorem c8_restart_preserves_witness :
    cmd_start "1" [("1", c8User), ("2", defaultUser)]
        = storeSet [("1", c8User), ("2", defaultUser)] "1" { c8User with step := some "get_name" }
      ∧ (cmd_start "1" [("1", c8User), ("2", defaultUser)]).lookup "1"
          = some { c8User with step := some "get_name" }
      ∧ ({ c8User with step := some "get_name" }).medicines = c8User.medicines
      ∧ ({ c8User with step := some "get_name" }).paid = c8User.paid
      ∧ (cmd_start "1" [("1", c8User), ("2", defaultUser)]).lookup "2" = some defaultUser := by
  obtain ⟨ha, hb, hc, hd, he⟩ :=
    c8_restart_preserves "1" [("1", c8User), ("2", defaultUser)] c8User (by decide)
  refine ⟨ha, hb, hd, he, ?_⟩
  rw [hc "2" (by decide)]
  decide

end Medibot

namespace Complete

open Medibot

/-- The ordered country-calling-code table of `medibot_final_complete.py`'s
`phone` handler (`country_code_map`), in insertion order. -/
def country_code_map : List (String × String) :=
  [("+20", "EG"), ("+966", "SA"), ("+971", "AE"), ("+974", "QA"), ("+965", "KW")]

/-- Country detection exactly as the source does it: first table entry whose
full prefix (including the `+`) starts the raw text; `"INTL"` otherwise. -/
def detect_country (text : String) : String :=
  match country_code_map.find? (fun p => strStartsWith text p.1) with
  | some p => p.2
  | none => "INTL"

/-- Country detection as claim C9 words it (modelled from the claim, for
refutation): strip a leading `+`, then match the remaining digits against
the calling codes. -/
def detect_country_specModel (text : String) : String :=
  match [("20", "EG"), ("966", "SA"), ("971", "AE"), ("974", "QA"), ("965", "KW")].find?
      (fun p =>
        strStartsWith
          (if strStartsWith text "+" then String.mk (text.toList.drop 1) else text) p.1) with
  | some p => p.2
  | none => "INTL"

theorem strStartsWith_trans {a b c : String} (h1 : strStartsWith b a = true)
    (h2 : strStartsWith c b = true) : strStartsWith c a = true := by
  unfold strStartsWith at *
  rw [List.isPrefixOf_iff_prefix] at *
  exact h1.trans h2

/-- C9 counterexample: the source matches the prefix including the `+` and
never strips it, so a digit-leading Egyptian number stays `"INTL"` although
the claim's strip-then-match rule yields `"EG"`. -/
theorem c9_no_plus_counterexample :
    detect_country_specModel "20100000000" = "EG"
    ∧ detect_country "20100000000" = "INTL" := by decide

/-- C9 (amended): the phone prefix is matched, `+` included, against the
ordered calling-code table, first match winning, `"INTL"` otherwise; a text
not starting with `+` can never match.  The claim's three examples hold. -/
theorem c9_country_inference :
    detect_country "+20100000000" = "EG"
    ∧ detect_country "+966500000000" = "SA"
    ∧ detect_country "+15551234567" = "INTL"
    ∧ ∀ t, strStartsWith t "+" = false → detect_country t = "INTL" := by
  refine ⟨by decide, by decide, by decide, ?_⟩
  intro t ht
  unfold detect_country
  have hnone : country_code_map.find? (fun p => strStartsWith t p.1) = none := by
    apply List.find?_eq_none.mpr
    intro p hp
    have hplus : strStartsWith p.1 "+" = true := by
      unfold country_code_map at hp
      fin_cases hp <;> decide
    intro hcon
    have hd := strStartsWith_trans hplus hcon
    rw [ht] at hd
    exact Bool.noConfusion hd
  rw [hnone]

/-- C9 witness: a digit-leading number never matches, landing in the
default bucket. -/
theorem c9_country_inference_witness :
    strStartsWith "20100000000" "+" = false
    ∧ detect_country "20100000000" = "INTL" :=
  ⟨by decide, c9_country_inference.2.2.2 "20100000000" (by decide)⟩

end Complete
namespace Medibot

/-- C6 (amended): at every validated step — phone, age, email, times-count,
time format, period token — an input failing that step's validation, other
than the globally intercepted navigation texts, produces exactly one error
prompt and leaves the store and the job set unchanged; and the times-count
is accepted (advancing to `med_time_input`) exactly for `{1,2,3,4}`. -/
theorem c6_invalid_input_no_advance (nowMs : Nat) (uid raw : String) (st : Store)
    (js : Finset String) (u : UserRec)
    (hstrip : pyStrip raw = raw) (hlu : st.lookup uid = some u)
    (h1 : raw ≠ "أدويتي") (h2 : raw ≠ "💳 الباقات")
    (h3 : raw ≠ "🔙 الرجوع إلى القائمة السابقة") (h4 : raw ≠ "🔙 رجوع")
    (h5 : raw ≠ "رجوع") :
    (u.step = some "get_phone" → ¬ (strStartsWith raw "+" = true ∧ 7 ≤ raw.length) →
        (state_machine nowMs uid raw st js).store = st
        ∧ (state_machine nowMs uid raw st js).jobs = js
        ∧ (state_machine nowMs uid raw st js).sent
            = ["الرجاء إدخال رقم هاتف صحيح مع رمز الدولة مثل: +201XXXXXXXXX"])
    ∧ (u.step = some "get_age" → pyIsDigit raw = false →
        (state_machine nowMs uid raw st js).store = st
        ∧ (state_machine nowMs uid raw st js).jobs = js
        ∧ (state_machine nowMs uid raw st js).sent = ["من فضلك أدخل رقم صحيح للسن."])
    ∧ (u.step = some "get_email" →
        ¬ (strContains "@" raw = true ∧ strContains "." raw = true) →
        (state_machine nowMs uid raw st js).store = st
        ∧ (state_machine nowMs uid raw st js).jobs = js
        ∧ (state_machine nowMs uid raw st js).sent = ["من فضلك أدخل بريد إلكتروني صالح."])
    ∧ (u.step = some "med_times_count" →
        ¬ (raw = "1" ∨ raw = "2" ∨ raw = "3" ∨ raw = "4") →
        (state_machine nowMs uid raw st js).store = st
        ∧ (state_machine nowMs uid raw st js).jobs = js
        ∧ (state_machine nowMs uid raw st js).sent
            = ["اختر رقم من 1 إلى 4 باستخدام الأزرار."])
    ∧ (∀ t, u.step = some "med_times_count" → u.temp = some t →
        (raw = "1" ∨ raw = "2" ∨ raw = "3" ∨ raw = "4") →
        (state_machine nowMs uid raw st js).store
          = storeSet st uid
              { u with
                temp := some { t with times_needed := some (digitsToNat raw), times_collected := some 0, timesT := some [] },
                step := some "med_time_input" }
        ∧ (state_machine nowMs uid raw st js).jobs = js)
    ∧ (u.step = some "med_time_input" →
        (∀ hh mm : Int, parseTime2 raw = some (hh, mm) →
          ¬ (0 ≤ hh ∧ hh < 24 ∧ 0 ≤ mm ∧ mm < 60)) →
        (state_machine nowMs uid raw st js).store = st
        ∧ (state_machine nowMs uid raw st js).jobs = js
        ∧ (state_machine nowMs uid raw st js).sent
            = ["صيغة خاطئة. استخدم HH:MM مثل 08:30"])
    ∧ (∀ t cand hh mm, u.step = some "med_time_period" → u.temp = some t →
        t.candidate = some cand → parseTime2 cand = some (hh, mm) →
        raw ≠ "صباحًا" → raw ≠ "مساءً" →
        (state_machine nowMs uid raw st js).store = st
        ∧ (state_machine nowMs uid raw st js).jobs = js
        ∧ (state_machine nowMs uid raw st js).sent
            = ["اختيار غير صالح. اختر صباحًا أو مساءً."]) := by
  obtain ⟨hs, hj, hm⟩ := state_machine_of_mem nowMs uid raw st js u hlu
  rw [hstrip, smUser_not_button nowMs uid raw u js h1 h2 h3 h4 h5] at hs hj hm
  refine ⟨?_, ?_, ?_, ?_, ?_, ?_, ?_⟩
  · -- phone
    intro hstep hrej
    unfold smReg at hs hj hm
    rw [if_neg (by simp [hstep]), if_pos hstep] at hs hj hm
    have hcond : ¬ strStartsWith raw "+" = true ∨ raw.length < 7 := by
      by_cases hA : strStartsWith raw "+" = true
      · right
        by_contra hlen
        exact hrej ⟨hA, by omega⟩
      · exact Or.inl hA
    rw [if_pos hcond, storeSet_lookup_eq st uid u hlu] at hs
    rw [if_pos hcond] at hj hm
    exact ⟨hs, hj, hm⟩
  · -- age
    intro hstep hdig
    unfold smReg at hs hj hm
    rw [if_neg (by simp [hstep]), if_neg (by simp [hstep]), if_pos hstep] at hs hj hm
    rw [if_pos (by simp [hdig]), storeSet_lookup_eq st uid u hlu] at hs
    rw [if_pos (by simp [hdig])] at hj hm
    exact ⟨hs, hj, hm⟩
  · -- email
    intro hstep hrej
    unfold smReg at hs hj hm
    rw [if_neg (by simp [hstep]), if_neg (by simp [hstep]), if_neg (by simp [hstep]),
      if_pos hstep] at hs hj hm
    have hcond : ¬ strContains "@" raw = true ∨ ¬ strContains "." raw = true := by
      by_cases hA : strContains "@" raw = true
      · right
        intro hB
        exact hrej ⟨hA, hB⟩
      · exact Or.inl hA
    rw [if_pos hcond, storeSet_lookup_eq st uid u hlu] at hs
    rw [if_pos hcond] at hj hm
    exact ⟨hs, hj, hm⟩
  · -- times count, rejection
    intro hstep hrej
    rw [smReg_to_smAdd nowMs uid raw u js "med_times_count" hstep (by decide)] at hs hj hm
    unfold smAdd at hs hj hm
    rw [if_neg (by simp [hstep]), if_neg (by simp [hstep]), if_pos hstep] at hs hj hm
    rw [if_pos hrej, storeSet_lookup_eq st uid u hlu] at hs
    rw [if_pos hrej] at hj hm
    exact ⟨hs, hj, hm⟩
  · -- times count, acceptance
    intro t hstep htemp hacc
    rw [smReg_to_smAdd nowMs uid raw u js "med_times_count" hstep (by decide)] at hs hj
    unfold smAdd at hs hj
    rw [if_neg (by simp [hstep]), if_neg (by simp [hstep]), if_pos hstep] at hs hj
    rw [if_neg (fun hcon => hcon hacc)] at hs hj
    simp only [htemp] at hs hj
    exact ⟨hs, hj⟩
  · -- time format
    intro hstep hbad
    rw [smReg_to_smAdd nowMs uid raw u js "med_time_input" hstep (by decide)] at hs hj hm
    unfold smAdd at hs hj hm
    rw [if_neg (by simp [hstep]), if_neg (by simp [hstep]), if_neg (by simp [hstep]),
      if_pos hstep] at hs hj hm
    cases hp : parseTime2 raw with
    | none =>
      simp only [hp] at hs hj hm
      rw [storeSet_lookup_eq st uid u hlu] at hs
      exact ⟨hs, hj, hm⟩
    | some p =>
      obtain ⟨hh, mm⟩ := p
      simp only [hp] at hs hj hm
      rw [if_pos (hbad hh mm hp), storeSet_lookup_eq st uid u hlu] at hs
      rw [if_pos (hbad hh mm hp)] at hj hm
      exact ⟨hs, hj, hm⟩
  · -- period token
    intro t cand hh mm hstep htemp hcand hparse hb1 hb2
    rw [smReg_to_smAdd nowMs uid raw u js "med_time_period" hstep (by decide),
      smAdd_at_period nowMs uid raw u js hstep] at hs hj hm
    unfold medTimePeriodStep at hs hj hm
    simp only [htemp, hcand, hparse] at hs hj hm
    rw [if_neg (fun hcon => hcon.elim hb1 hb2)] at hs hj hm
    rw [storeSet_lookup_eq st uid u hlu] at hs
    exact ⟨hs, hj, hm⟩

/-- A user at the times-count step, for the C6 witness. -/
def c6User : UserRec where
  step := some "med_times_count"
  temp := some { nameT := some "a", doseT := some "d" }

/-- C6 witness: the out-of-range count `"7"` is rejected with the error
prompt and no state change. -/
theorem c6_invalid_input_witness :
    (state_machine 0 "1" "7" [("1", c6User)] ∅).store = [("1", c6User)]
    ∧ (state_machine 0 "1" "7" [("1", c6User)] ∅).jobs = ∅
    ∧ (state_machine 0 "1" "7" [("1", c6User)] ∅).sent
        = ["اختر رقم من 1 إلى 4 باستخدام الأزرار."] :=
  (c6_invalid_input_no_advance 0 "1" "7" [("1", c6User)] ∅ c6User (by decide) (by decide)
      (by decide) (by decide) (by decide) (by decide) (by decide)).2.2.2.1
    (by decide) (by decide)

/-- A user at the time-input step, for the C6 counterexample. -/
def c6CexUser : UserRec where
  step := some "med_time_input"
  temp := some { nameT := some "a", doseT := some "d", times_needed := some 1,
                 times_collected := some 0, timesT := some [] }

/-- C6 counterexample: the menu text `💳 الباقات` fails the `HH:MM`
pattern at the time-input step, yet the machine moves the step to
`awaiting_payment` instead of re-prompting unchanged — the global button
texts are intercepted before validation. -/
theorem c6_button_advances_counterexample :
    parseTime2 "💳 الباقات" = none
    ∧ (state_machine 0 "1" "💳 الباقات" [("1", c6CexUser)] ∅).store
        = [("1", { c6CexUser with step := some "awaiting_payment" })] := by decide

end Medibot
namespace Medibot

/-- C7 (amended): completing the delete flow on the chosen medicine removes
exactly that medicine from the user's list, moves the step back to the
medicine menu, leaves every other user's record untouched, erases exactly
the chosen medicine's derived job keys, and keeps every live job whose id
is not one of those keys.  (A job whose key is shared with another
medicine — possible only when timestamp ids collide — is cancelled too;
see the counterexample.) -/
theorem c7_delete_medicine (nowMs : Nat) (uid raw : String) (st : Store)
    (js : Finset String) (u : UserRec) (chosen : Medicine)
    (hstrip : pyStrip raw = raw) (hlu : st.lookup uid = some u)
    (hstep : u.step = some "choose_delete")
    (h1 : raw ≠ "أدويتي") (h2 : raw ≠ "💳 الباقات")
    (h3 : raw ≠ "🔙 الرجوع إلى القائمة السابقة") (h4 : raw ≠ "🔙 رجوع")
    (h5 : raw ≠ "رجوع") (h6 : raw ≠ "📋 عرض الأدوية") (h7 : raw ≠ "➕ إضافة دواء")
    (h8 : raw ≠ "✏️ تعديل دواء") (h9 : raw ≠ "🗑️ حذف دواء")
    (hfind : u.medicines.find? (fun m => m.name == raw) = some chosen) :
    (state_machine nowMs uid raw st js).store
        = storeSet st uid
            { u with medicines := u.medicines.erase chosen, step := some "in_mymeds" }
    ∧ (∀ k, k ≠ uid →
        ((state_machine nowMs uid raw st js).store).lookup k = st.lookup k)
    ∧ (state_machine nowMs uid raw st js).jobs = js \ (allKeyList uid chosen).toFinset
    ∧ (∀ j ∈ js, j ∉ (allKeyList uid chosen).toFinset →
        j ∈ (state_machine nowMs uid raw st js).jobs)
    ∧ (state_machine nowMs uid raw st js).sent = ["تم حذف الدواء."] := by
  obtain ⟨hs, hj, hm⟩ := state_machine_of_mem nowMs uid raw st js u hlu
  rw [hstrip, smUser_not_button nowMs uid raw u js h1 h2 h3 h4 h5,
    smReg_to_smAdd nowMs uid raw u js "choose_delete" hstep (by decide),
    smAdd_to_smMeds nowMs uid raw u js "choose_delete" hstep (by decide),
    smMeds_to_smEdit uid raw u js "choose_delete" hstep (by decide) h6 h7 h8,
    smEdit_to_smDeleteTail uid raw u js "choose_delete" hstep (by decide)] at hs hj hm
  unfold smDeleteTail at hs hj hm
  rw [if_neg h9, if_pos hstep, if_neg h4] at hs hj hm
  simp only [hfind] at hs hj hm
  rw [remove_med_jobs_eq] at hj
  refine ⟨hs, ?_, hj, ?_, hm⟩
  · intro k hk
    rw [hs, lookup_storeSet_ne st uid k _ hk]
  · intro j hjs hjk
    rw [hj]
    exact Finset.mem_sdiff.mpr ⟨hjs, hjk⟩

/-- A paid user at the delete-choice step with two medicines, for the C7
witness. -/
def c7User : UserRec where
  step := some "choose_delete"
  medicines := [⟨"7", "a", "d", ["08:00"]⟩, ⟨"8", "b", "d", ["09:00"]⟩]

/-- C7 witness: deleting medicine `"a"` removes exactly it, cancels exactly
its job, and keeps the other medicine's job. -/
theorem c7_delete_medicine_witness :
    (state_machine 0 "1" "a" [("1", c7User)] {"1__7__0800__0", "1__8__0900__0"}).store
        = storeSet [("1", c7User)] "1"
            { c7User with
              medicines := c7User.medicines.erase ⟨"7", "a", "d", ["08:00"]⟩,
              step := some "in_mymeds" }
      ∧ (state_machine 0 "1" "a" [("1", c7User)] {"1__7__0800__0", "1__8__0900__0"}).jobs
          = {"1__7__0800__0", "1__8__0900__0"} \ (allKeyList "1" ⟨"7", "a", "d", ["08:00"]⟩).toFinset
      ∧ (state_machine 0 "1" "a" [("1", c7User)] {"1__7__0800__0", "1__8__0900__0"}).sent
          = ["تم حذف الدواء."]
      ∧ "1__8__0900__0"
          ∈ (state_machine 0 "1" "a" [("1", c7User)] {"1__7__0800__0", "1__8__0900__0"}).jobs := by
  obtain ⟨ha, hb, hc, hd, he⟩ :=
    c7_delete_medicine 0 "1" "a" [("1", c7User)] {"1__7__0800__0", "1__8__0900__0"} c7User
      ⟨"7", "a", "d", ["08:00"]⟩ (by decide) (by decide) (by decide) (by decide) (by decide)
      (by decide) (by decide) (by decide) (by decide) (by decide) (by decide) (by decide)
      (by decide)
  exact ⟨ha, hc, he, hd "1__8__0900__0" (by decide) (by decide)⟩

/-- A user at the delete-choice step whose two medicines share a colliding
timestamp id and a time entry, for the C7 counterexample. -/
def c7CexUser : UserRec where
  step := some "choose_delete"
  medicines := [⟨"5", "A", "d", ["08:00"]⟩, ⟨"5", "B", "d", ["08:00"]⟩]

/-- C7 counterexample: deleting medicine `"A"` also cancels the live job
derived from the surviving medicine `"B"`, because both derive the same
job key — refuting "all jobs derived from those other medicines are
unchanged" for every state. -/
theorem c7_shared_key_counterexample :
    ("1__5__0800__0" ∈ allKeyList "1" ⟨"5", "B", "d", ["08:00"]⟩)
    ∧ (⟨"5", "B", "d", ["08:00"]⟩ : Medicine)
        ∈ (((state_machine 0 "1" "A" [("1", c7CexUser)] {"1__5__0800__0"}).store.lookup "1").getD
            defaultUser).medicines
    ∧ (state_machine 0 "1" "A" [("1", c7CexUser)] {"1__5__0800__0"}).jobs = ∅ := by decide

end Medibot
namespace Medibot

theorem handle_uid_isSome (i : BotInput) (s : Store × Finset String) :
    (((handle i s).1).lookup i.uid).isSome := by
  cases i with
  | start uid =>
    simp only [handle, BotInput.uid]
    unfold cmd_start
    rw [lookup_storeSet_self]
    rfl
  | msg nowMs uid text =>
    simp only [handle, BotInput.uid]
    rw [state_machine_store, lookup_storeSet_self]
    rfl
  | callback uid c =>
    simp only [handle, BotInput.uid]
    unfold callback_handler
    split
    · rw [lookup_storeSet_self]
      rfl
    · exact lookup_ensure_user_self uid s.1

theorem handle_preserves (i : BotInput) (s : Store × Finset String) (k : String)
    (u : UserRec) (hk : s.1.lookup k = some u) :
    (((handle i s).1).lookup k).isSome := by
  by_cases hku : k = i.uid
  · rw [hku]
    exact handle_uid_isSome i s
  · cases i with
    | start uid =>
      simp only [BotInput.uid] at hku
      simp only [handle]
      unfold cmd_start
      rw [lookup_storeSet_ne _ _ _ _ hku, lookup_ensure_user_of_some uid k s.1 u hk]
      rfl
    | msg nowMs uid text =>
      simp only [BotInput.uid] at hku
      simp only [handle]
      rw [state_machine_store, lookup_storeSet_ne _ _ _ _ hku,
        lookup_ensure_user_of_some uid k s.1 u hk]
      rfl
    | callback uid c =>
      simp only [BotInput.uid] at hku
      simp only [handle]
      unfold callback_handler
      split
      · rw [lookup_storeSet_ne _ _ _ _ hku, lookup_ensure_user_of_some uid k s.1 u hk]
        rfl
      · rw [lookup_ensure_user_of_some uid k s.1 u hk]
        rfl

theorem processTrace_none {l : List BotInput} {s : Store × Finset String} {k : String}
    (h : ((processTrace l s).1).lookup k = none) :
    s.1.lookup k = none ∧ ∀ i ∈ l, BotInput.uid i ≠ k := by
  induction l generalizing s with
  | nil => exact ⟨h, by simp⟩
  | cons i rest ih =>
    have h' : ((processTrace rest (handle i s)).1).lookup k = none := h
    obtain ⟨h1, h2⟩ := ih h'
    have hu : BotInput.uid i ≠ k := by
      intro he
      have hx := handle_uid_isSome i s
      rw [he, h1] at hx
      simp at hx
    have hsn : s.1.lookup k = none := by
      cases hc : s.1.lookup k with
      | none => rfl
      | some u =>
        have hx := handle_preserves i s k u hc
        rw [h1] at hx
        simp at hx
    refine ⟨hsn, ?_⟩
    intro j hj
    rcases List.mem_cons.mp hj with hje | hjr
    · subst hje
      exact hu
    · exact h2 j hjr

/-- C10: every handler first materialises an unknown sender with the
defaults `step = None`, `medicines = []`, `paid = False`; after any handled
input the sender's record exists; records survive every input; hence a user
absent after a whole trace was absent initially and never sent anything. -/
theorem c10_ensure_then_interpret :
    (∀ uid st, st.lookup uid = none →
        (ensure_user uid st).lookup uid = some defaultUser
        ∧ defaultUser.step = none ∧ defaultUser.medicines = []
        ∧ defaultUser.paid = false)
    ∧ (∀ (i : BotInput) (s : Store × Finset String), (((handle i s).1).lookup i.uid).isSome)
    ∧ (∀ (i : BotInput) (s : Store × Finset String) (k : String) (u : UserRec),
        s.1.lookup k = some u → (((handle i s).1).lookup k).isSome)
    ∧ (∀ (l : List BotInput) (s : Store × Finset String) (k : String),
        ((processTrace l s).1).lookup k = none →
        s.1.lookup k = none ∧ ∀ i ∈ l, BotInput.uid i ≠ k) := by
  refine ⟨?_, handle_uid_isSome, handle_preserves, fun l s k h => processTrace_none h⟩
  intro uid st h
  rw [ensure_user_lookup_none uid st h, lookup_append_of_none _ h]
  exact ⟨by simp [List.lookup], rfl, rfl, rfl⟩

/-- C10 witness: an unknown sender's record is created with the default
fields, and a record exists for the sender of a plain text message handled
from the empty store. -/
theorem c10_ensure_then_interpret_witness :
    ((ensure_user "9" []).lookup "9" = some defaultUser
      ∧ defaultUser.step = none ∧ defaultUser.medicines = []
      ∧ defaultUser.paid = false)
    ∧ (((handle (.msg 0 "5" "hello") ([], ∅)).1).lookup "5").isSome :=
  ⟨c10_ensure_then_interpret.1 "9" [] rfl,
   c10_ensure_then_interpret.2.1 (.msg 0 "5" "hello") ([], ∅)⟩

end Medibot
